import Mathlib

/-!
Shallow embedding of `src/app/utils/packer.algorithm.util.js`: the growing
binary-tree bin packer (`GrowingPacker`) and the fixed-size packer
(`Packer`, exported as `FixedSizePacker`).  JS numbers are modelled as
rationals; the mutable node tree as an inductive value threaded through
every operation; `block.fit` (a reference to the node the block was split
into) is modelled by recording the geometric fields x, y, width, height of
that node at split time (the code never mutates those four fields of an
existing node afterwards, so the snapshot matches the final read).
-/

namespace Packing

/-- An axis-aligned rectangle: top-left corner (x, y) and size. -/
structure Box where
  x : ℚ
  y : ℚ
  width : ℚ
  height : ℚ
deriving DecidableEq

/-- The open interior of a box, as a set of rational points. -/
def openBox (b : Box) : Set (ℚ × ℚ) :=
  {p | b.x < p.1 ∧ p.1 < b.x + b.width ∧ b.y < p.2 ∧ p.2 < b.y + b.height}

instance (b : Box) (p : ℚ × ℚ) : Decidable (p ∈ openBox b) :=
  inferInstanceAs (Decidable (b.x < p.1 ∧ p.1 < b.x + b.width ∧ b.y < p.2 ∧ p.2 < b.y + b.height))

/-- The closed box, as a set of rational points. -/
def closedBox (b : Box) : Set (ℚ × ℚ) :=
  {p | b.x ≤ p.1 ∧ p.1 ≤ b.x + b.width ∧ b.y ≤ p.2 ∧ p.2 ≤ b.y + b.height}

instance (b : Box) (p : ℚ × ℚ) : Decidable (p ∈ closedBox b) :=
  inferInstanceAs (Decidable (b.x ≤ p.1 ∧ p.1 ≤ b.x + b.width ∧ b.y ≤ p.2 ∧ p.2 ≤ b.y + b.height))

/-- `boxSub a b`: the box `a` is contained in the box `b`, coordinatewise. -/
def boxSub (a b : Box) : Prop :=
  b.x ≤ a.x ∧ b.y ≤ a.y ∧ a.x + a.width ≤ b.x + b.width ∧ a.y + a.height ≤ b.y + b.height

instance (a b : Box) : Decidable (boxSub a b) :=
  inferInstanceAs (Decidable (_ ∧ _ ∧ _ ∧ _))

/-- Two boxes separated by an axis-aligned line; their interiors cannot meet. -/
def sepBox (a b : Box) : Prop :=
  a.x + a.width ≤ b.x ∨ b.x + b.width ≤ a.x ∨ a.y + a.height ≤ b.y ∨ b.y + b.height ≤ a.y

instance (a b : Box) : Decidable (sepBox a b) :=
  inferInstanceAs (Decidable (_ ∨ _ ∨ _ ∨ _))

/-- The footprint a placed block occupies: the block's own width and height at
the x, y of the node it was fit into (the drawing loop in the file header uses
`Draw(block.fit.x, block.fit.y, block.width, block.height)`). -/
def footprint (block : ℚ × ℚ) (f : Box) : Box :=
  ⟨f.x, f.y, block.1, block.2⟩

/-- A tree node of either packer: a free leaf `{x, y, width, height}` (the JS
object has no `used`, `right`, `down` fields, i.e. they are undefined/falsy),
or a used node carrying both children, the shape `splitNode`, `growRight` and
`growDown` always produce. -/
inductive Node where
  | free (x y width height : ℚ)
  | used (x y width height : ℚ) (right down : Node)
deriving DecidableEq

def Node.x : Node → ℚ
  | .free x _ _ _ => x
  | .used x _ _ _ _ _ => x

def Node.y : Node → ℚ
  | .free _ y _ _ => y
  | .used _ y _ _ _ _ => y

def Node.width : Node → ℚ
  | .free _ _ w _ => w
  | .used _ _ w _ _ _ => w

def Node.height : Node → ℚ
  | .free _ _ _ h => h
  | .used _ _ _ h _ _ => h

/-- The geometric fields of a node, bundled. -/
def Node.box (n : Node) : Box :=
  ⟨n.x, n.y, n.width, n.height⟩

/-- The JS `used` flag (undefined, hence falsy, on a free leaf). -/
def Node.usedFlag : Node → Bool
  | .free _ _ _ _ => false
  | .used _ _ _ _ _ _ => true

/-- The `right` child, when present. -/
def Node.rightChild : Node → Option Node
  | .free _ _ _ _ => none
  | .used _ _ _ _ r _ => some r

/-- The `down` child, when present. -/
def Node.downChild : Node → Option Node
  | .free _ _ _ _ => none
  | .used _ _ _ _ _ d => some d

/-- `splitNode(node, width, height)` (identical in both packers): sets
`node.used = true`, `node.down = {x: node.x, y: node.y + height, width:
node.width, height: node.height - height}`, `node.right = {x: node.x + width,
y: node.y, width: node.width - width, height: height}`, and returns the node,
whose own x, y, width, height are untouched. -/
def splitNode (node : Node) (width height : ℚ) : Node :=
  Node.used node.x node.y node.width node.height
    (Node.free (node.x + width) node.y (node.width - width) height)
    (Node.free node.x (node.y + height) node.width (node.height - height))

/-- `findNode(root, width, height)` followed by `splitNode` at the found node:
the composition both `fit` loops perform (`node = this.findNode(this.root, w,
h); if (node) block.fit = this.splitNode(node, w, h)`).  `findNode` recurses
into `right` first, then `down`, and accepts the first free node with
`width ≤ node.width && height ≤ node.height`.  Returns the updated tree
together with the x, y, width, height of the node returned to the caller, or
`none` when `findNode` returns null (tree unchanged). -/
def tryInsert : Node → ℚ → ℚ → Option (Node × Box)
  | Node.free x y w h, width, height =>
      if width ≤ w ∧ height ≤ h then
        some (splitNode (Node.free x y w h) width height, ⟨x, y, w, h⟩)
      else
        none
  | Node.used x y w h r d, width, height =>
      match tryInsert r width height with
      | some (r2, f) => some (Node.used x y w h r2 d, f)
      | none =>
          match tryInsert d width height with
          | some (d2, f) => some (Node.used x y w h r d2, f)
          | none => none

/-- `Packer.init(width, height)` (fixed-size packer): root is a single free
node at the origin. -/
def Packer.init (width height : ℚ) : Node :=
  Node.free 0 0 width height

/-- One iteration of `Packer.fit`'s loop: find-and-split; when `findNode`
returns null the block's `fit` stays unset and the tree is unchanged. -/
def Packer.fitOne (root : Node) (block : ℚ × ℚ) : Node × Option Box :=
  match tryInsert root block.1 block.2 with
  | some (r, f) => (r, some f)
  | none => (root, none)

/-- `Packer.fit(blocks)`: processes the blocks in input order, returning the
final tree and each block's `fit` result. -/
def Packer.fit : Node → List (ℚ × ℚ) → Node × List (Option Box)
  | root, [] => (root, [])
  | root, b :: bs =>
      let s := Packer.fitOne root b
      let t := Packer.fit s.1 bs
      (t.1, s.2 :: t.2)

/-- The growing packer's state: the `aspectRatio` field fixed at construction
(named `aspect` here) and the current root. -/
structure GrowingPacker where
  aspect : ℚ
  root : Node
deriving DecidableEq

/-- `GrowingPacker.init(width, height)`:
`aspectRatio = width / height; this.aspectRatio = (aspectRatio > 1) ?
(width / height) : (height / width)`, root free at the origin. -/
def GrowingPacker.init (width height : ℚ) : GrowingPacker :=
  ⟨if width / height > 1 then width / height else height / width,
   Node.free 0 0 width height⟩

/-- `GrowingPacker.growRight(width, height)`: the new root is a used node of
size `(root.width + width) × ((root.width + width) * (1 / aspectRatio))` with
`down` = the old root and `right` = a fresh free strip
`{x: root.width, y: 0, width: width, height: newHeight}`; then re-runs
find-and-split on the new root (null propagates, the grown root stays). -/
def GrowingPacker.growRight (p : GrowingPacker) (width height : ℚ) : GrowingPacker × Option Box :=
  let newWidth := p.root.width + width
  let newHeight := newWidth * (1 / p.aspect)
  let root : Node := Node.used 0 0 newWidth newHeight
      (Node.free p.root.width 0 width newHeight) p.root
  match tryInsert root width height with
  | some (r, f) => (⟨p.aspect, r⟩, some f)
  | none => (⟨p.aspect, root⟩, none)

/-- `GrowingPacker.growDown(width, height)`: the new root is a used node of
size `((root.height + height) * aspectRatio) × (root.height + height)` with
`right` = the old root and `down` = a fresh free strip
`{x: 0, y: root.height, width: newWidth, height: height}`; then re-runs
find-and-split on the new root. -/
def GrowingPacker.growDown (p : GrowingPacker) (width height : ℚ) : GrowingPacker × Option Box :=
  let newHeight := p.root.height + height
  let newWidth := newHeight * p.aspect
  let root : Node := Node.used 0 0 newWidth newHeight p.root
      (Node.free 0 p.root.height newWidth height)
  match tryInsert root width height with
  | some (r, f) => (⟨p.aspect, r⟩, some f)
  | none => (⟨p.aspect, root⟩, none)

/-- `GrowingPacker.growNode(width, height)`:
`canGrowDown = width ≤ root.width`, `canGrowRight = height ≤ root.height`,
`shouldGrowRight = canGrowRight && root.height * aspectRatio ≥ root.width + width`,
`shouldGrowDown = canGrowDown && root.width * (1 / aspectRatio) ≥ root.height + height`,
tried in the order shouldGrowRight, shouldGrowDown, canGrowRight, canGrowDown,
else null. -/
def GrowingPacker.growNode (p : GrowingPacker) (width height : ℚ) : GrowingPacker × Option Box :=
  if height ≤ p.root.height ∧ p.root.height * p.aspect ≥ p.root.width + width then
    p.growRight width height
  else if width ≤ p.root.width ∧ p.root.width * (1 / p.aspect) ≥ p.root.height + height then
    p.growDown width height
  else if height ≤ p.root.height then
    p.growRight width height
  else if width ≤ p.root.width then
    p.growDown width height
  else
    (p, none)

/-- One iteration of `GrowingPacker.fit`'s loop: find-and-split, and on
failure `block.fit = this.growNode(block.width, block.height)`. -/
def GrowingPacker.fitOne (p : GrowingPacker) (block : ℚ × ℚ) : GrowingPacker × Option Box :=
  match tryInsert p.root block.1 block.2 with
  | some (r, f) => (⟨p.aspect, r⟩, some f)
  | none => p.growNode block.1 block.2

/-- `GrowingPacker.fit(blocks)`: processes the blocks in input order. -/
def GrowingPacker.fit : GrowingPacker → List (ℚ × ℚ) → GrowingPacker × List (Option Box)
  | p, [] => (p, [])
  | p, b :: bs =>
      let s := p.fitOne b
      let t := GrowingPacker.fit s.1 bs
      (t.1, s.2 :: t.2)

/-- The union of the open interiors of the free leaves of a tree: the space
still available for placement. -/
def Node.freeSet : Node → Set (ℚ × ℚ)
  | .free x y w h => openBox ⟨x, y, w, h⟩
  | .used _ _ _ _ r d => r.freeSet ∪ d.freeSet

/-- Geometric well-formedness of a tree: each used node's children lie inside
it and are separated from each other. -/
def Node.WF : Node → Prop
  | .free _ _ _ _ => True
  | .used x y w h r d =>
      boxSub r.box ⟨x, y, w, h⟩ ∧ boxSub d.box ⟨x, y, w, h⟩ ∧
      sepBox r.box d.box ∧ r.WF ∧ d.WF

/-- Every node of the tree has non-negative width and height. -/
def Node.nonneg : Node → Prop
  | .free _ _ w h => 0 ≤ w ∧ 0 ≤ h
  | .used _ _ w h r d => 0 ≤ w ∧ 0 ≤ h ∧ r.nonneg ∧ d.nonneg

/-- The right/down children of every used node have disjoint interiors. -/
def Node.childrenDisjoint : Node → Prop
  | .free _ _ _ _ => True
  | .used _ _ _ _ r d =>
      Disjoint (openBox r.box) (openBox d.box) ∧ r.childrenDisjoint ∧ d.childrenDisjoint

/-- `isSplitOf parent r d`: the boxes `r` and `d` are exactly the right/down
regions `splitNode` carves out of `parent` for some placed size `w × h` with
`0 ≤ w ≤ parent.width` and `0 ≤ h ≤ parent.height`; equivalently, `r`, `d`
and the `w × h` footprint at `(parent.x, parent.y)` are pairwise
non-overlapping and exactly cover `parent`. -/
def isSplitOf (parent r d : Box) : Prop :=
  r.y = parent.y ∧ parent.x ≤ r.x ∧ 0 ≤ r.width ∧
  r.x + r.width = parent.x + parent.width ∧
  d.x = parent.x ∧ d.width = parent.width ∧
  d.y = parent.y + r.height ∧ 0 ≤ r.height ∧ 0 ≤ d.height ∧
  d.y + d.height = parent.y + parent.height

instance (parent r d : Box) : Decidable (isSplitOf parent r d) :=
  inferInstanceAs (Decidable (_ ∧ _ ∧ _ ∧ _ ∧ _ ∧ _ ∧ _ ∧ _ ∧ _ ∧ _))

/-- Every used node's children arise from splitting it (the claimed tree
invariant: children partition the node's rectangle minus the placed
footprint). -/
def Node.fullySplit : Node → Prop
  | .free _ _ _ _ => True
  | .used x y w h r d => isSplitOf ⟨x, y, w, h⟩ r.box d.box ∧ r.fullySplit ∧ d.fullySplit

instance fullySplitDec : (n : Node) → Decidable n.fullySplit
  | .free _ _ _ _ => Decidable.isTrue trivial
  | .used x y w h r d =>
      have : Decidable r.fullySplit := fullySplitDec r
      have : Decidable d.fullySplit := fullySplitDec d
      inferInstanceAs (Decidable (isSplitOf ⟨x, y, w, h⟩ r.box d.box ∧ _ ∧ _))

/-- Run invariant of the growing packer, established by `init` whenever the
initial width is at least the initial height (both positive) and preserved by
every `fit` step: the aspect ratio is at least 1, the root sits at the origin
with positive landscape-oriented dimensions (`width = height * aspect`), and
the tree is geometrically well-formed. -/
structure GPInv (p : GrowingPacker) : Prop where
  aspect_ge : 1 ≤ p.aspect
  wpos : 0 < p.root.width
  hpos : 0 < p.root.height
  x0 : p.root.x = 0
  y0 : p.root.y = 0
  ratio : p.root.width = p.root.height * p.aspect
  wf : p.root.WF

/-- Everything one `fitOne` step guarantees, relating the state `p` before
the step to the state `p2` after it and the step's result `res` for a block
`bw × bh`: the invariant is preserved, the root only grows, the result is
`none` exactly when the block exceeds the root in both directions, the free
space stays inside the old free space plus the region outside the old root's
closed box, and a placed footprint is inside the new root box, avoided by the
new free space, and taken from the old free space or from outside the old
root. -/
def StepOk (p p2 : GrowingPacker) (bw bh : ℚ) (res : Option Box) : Prop :=
  GPInv p2 ∧ p2.aspect = p.aspect ∧
  p.root.width ≤ p2.root.width ∧ p.root.height ≤ p2.root.height ∧
  p2.root.freeSet ⊆ p.root.freeSet ∪ (closedBox p.root.box)ᶜ ∧
  (res = none ↔ p.root.width < bw ∧ p.root.height < bh) ∧
  ∀ f, res = some f →
    bw ≤ f.width ∧ bh ≤ f.height ∧
    boxSub (footprint (bw, bh) f) p2.root.box ∧
    Disjoint p2.root.freeSet (openBox (footprint (bw, bh) f)) ∧
    openBox (footprint (bw, bh) f) ⊆ p.root.freeSet ∪ (closedBox p.root.box)ᶜ

/-! ### Basic geometry lemmas -/

theorem boxSub_refl (a : Box) : boxSub a a :=
  ⟨le_refl _, le_refl _, le_refl _, le_refl _⟩

theorem boxSub_trans {a b c : Box} (h1 : boxSub a b) (h2 : boxSub b c) : boxSub a c := by
  obtain ⟨p1, p2, p3, p4⟩ := h1
  obtain ⟨q1, q2, q3, q4⟩ := h2
  exact ⟨le_trans q1 p1, le_trans q2 p2, le_trans p3 q3, le_trans p4 q4⟩

theorem boxSub_width {a b : Box} (h : boxSub a b) : a.width ≤ b.width := by
  obtain ⟨p1, _, p3, _⟩ := h; linarith

theorem boxSub_height {a b : Box} (h : boxSub a b) : a.height ≤ b.height := by
  obtain ⟨_, p2, _, p4⟩ := h; linarith

theorem openBox_mono {a b : Box} (h : boxSub a b) : openBox a ⊆ openBox b := by
  obtain ⟨p1, p2, p3, p4⟩ := h
  intro p hp
  obtain ⟨q1, q2, q3, q4⟩ := hp
  exact ⟨by linarith, by linarith, by linarith, by linarith⟩

theorem openBox_subset_closedBox (a : Box) : openBox a ⊆ closedBox a := by
  intro p hp
  obtain ⟨q1, q2, q3, q4⟩ := hp
  exact ⟨le_of_lt q1, le_of_lt q2, le_of_lt q3, le_of_lt q4⟩

theorem closedBox_mono {a b : Box} (h : boxSub a b) : closedBox a ⊆ closedBox b := by
  obtain ⟨p1, p2, p3, p4⟩ := h
  intro p hp
  obtain ⟨q1, q2, q3, q4⟩ := hp
  exact ⟨by linarith, by linarith, by linarith, by linarith⟩

theorem sepBox_disjoint {a b : Box} (h : sepBox a b) :
    Disjoint (openBox a) (openBox b) := by
  rw [Set.disjoint_left]
  intro p hpa hpb
  obtain ⟨a1, a2, a3, a4⟩ := hpa
  obtain ⟨b1, b2, b3, b4⟩ := hpb
  rcases h with h | h | h | h <;> linarith

theorem disjoint_compl_closed {b : Box} {s : Set (ℚ × ℚ)} (h : s ⊆ closedBox b) :
    Disjoint (closedBox b)ᶜ s :=
  Disjoint.mono_right h (disjoint_compl_left)

/-! ### Node accessor lemmas -/

@[simp] theorem Node.x_free (x y w h : ℚ) : (Node.free x y w h).x = x := rfl

@[simp] theorem Node.y_free (x y w h : ℚ) : (Node.free x y w h).y = y := rfl

@[simp] theorem Node.width_free (x y w h : ℚ) : (Node.free x y w h).width = w := rfl

@[simp] theorem Node.height_free (x y w h : ℚ) : (Node.free x y w h).height = h := rfl

@[simp] theorem Node.x_used (x y w h : ℚ) (r d : Node) : (Node.used x y w h r d).x = x := rfl

@[simp] theorem Node.y_used (x y w h : ℚ) (r d : Node) : (Node.used x y w h r d).y = y := rfl

@[simp] theorem Node.width_used (x y w h : ℚ) (r d : Node) :
    (Node.used x y w h r d).width = w := rfl

@[simp] theorem Node.height_used (x y w h : ℚ) (r d : Node) :
    (Node.used x y w h r d).height = h := rfl

@[simp] theorem Node.box_free (x y w h : ℚ) : (Node.free x y w h).box = ⟨x, y, w, h⟩ := rfl

@[simp] theorem Node.box_used (x y w h : ℚ) (r d : Node) :
    (Node.used x y w h r d).box = ⟨x, y, w, h⟩ := rfl

@[simp] theorem Node.freeSet_free (x y w h : ℚ) :
    (Node.free x y w h).freeSet = openBox ⟨x, y, w, h⟩ := rfl

@[simp] theorem Node.freeSet_used (x y w h : ℚ) (r d : Node) :
    (Node.used x y w h r d).freeSet = r.freeSet ∪ d.freeSet := rfl

@[simp] theorem Node.WF_free (x y w h : ℚ) : (Node.free x y w h).WF := trivial

theorem Node.WF_used (x y w h : ℚ) (r d : Node) :
    (Node.used x y w h r d).WF ↔
      boxSub r.box ⟨x, y, w, h⟩ ∧ boxSub d.box ⟨x, y, w, h⟩ ∧
      sepBox r.box d.box ∧ r.WF ∧ d.WF := Iff.rfl

theorem Node.nonneg_used (x y w h : ℚ) (r d : Node) :
    (Node.used x y w h r d).nonneg ↔ 0 ≤ w ∧ 0 ≤ h ∧ r.nonneg ∧ d.nonneg := Iff.rfl

theorem Node.childrenDisjoint_used (x y w h : ℚ) (r d : Node) :
    (Node.used x y w h r d).childrenDisjoint ↔
      Disjoint (openBox r.box) (openBox d.box) ∧ r.childrenDisjoint ∧ d.childrenDisjoint :=
  Iff.rfl

/-- The free space of a well-formed tree lies inside the interior of its root
box. -/
theorem Node.freeSet_subset_box : ∀ {n : Node}, n.WF → n.freeSet ⊆ openBox n.box := by
  intro n
  induction n with
  | free x y w h => intro _; simp
  | used x y w h r d ihr ihd =>
      intro hwf
      obtain ⟨hrb, hdb, _, hwr, hwd⟩ := hwf
      simp only [Node.freeSet_used, Node.box_used]
      exact Set.union_subset
        (subset_trans (ihr hwr) (openBox_mono hrb))
        (subset_trans (ihd hwd) (openBox_mono hdb))

/-! ### tryInsert computation lemmas -/

theorem footprint_mk (bw bh : ℚ) (f : Box) : footprint (bw, bh) f = ⟨f.x, f.y, bw, bh⟩ := rfl

theorem tryInsert_free (x y w h bw bh : ℚ) :
    tryInsert (Node.free x y w h) bw bh =
      if bw ≤ w ∧ bh ≤ h then
        some (splitNode (Node.free x y w h) bw bh, ⟨x, y, w, h⟩)
      else none := rfl

theorem tryInsert_used_of_right {bw bh : ℚ} {r r2 : Node} {f : Box}
    (x y w h : ℚ) (d : Node) (hr : tryInsert r bw bh = some (r2, f)) :
    tryInsert (Node.used x y w h r d) bw bh = some (Node.used x y w h r2 d, f) := by
  simp only [tryInsert, hr]

theorem tryInsert_used_of_down {bw bh : ℚ} {r d d2 : Node} {f : Box}
    (x y w h : ℚ) (hr : tryInsert r bw bh = none) (hd : tryInsert d bw bh = some (d2, f)) :
    tryInsert (Node.used x y w h r d) bw bh = some (Node.used x y w h r d2, f) := by
  simp only [tryInsert, hr, hd]

theorem tryInsert_used_none {bw bh : ℚ} {r d : Node}
    (x y w h : ℚ) (hr : tryInsert r bw bh = none) (hd : tryInsert d bw bh = none) :
    tryInsert (Node.used x y w h r d) bw bh = none := by
  simp only [tryInsert, hr, hd]

/-- A successful find-and-split does not change the root's own geometry. -/
theorem tryInsert_box {bw bh : ℚ} :
    ∀ {n n' : Node} {f : Box}, tryInsert n bw bh = some (n', f) → n'.box = n.box := by
  intro n
  induction n with
  | free x y w h =>
      intro n' f hins
      rw [tryInsert_free] at hins
      split_ifs at hins with hc
      · cases hins; rfl
  | used x y w h r d ihr ihd =>
      intro n' f hins
      rcases hr : tryInsert r bw bh with _ | ⟨r2, f2⟩
      · rcases hd : tryInsert d bw bh with _ | ⟨d2, f2⟩
        · rw [tryInsert_used_none x y w h hr hd] at hins
          exact absurd hins (by simp)
        · rw [tryInsert_used_of_down x y w h hr hd] at hins
          cases hins; rfl
      · rw [tryInsert_used_of_right x y w h d hr] at hins
        cases hins; rfl

/-- The node handed back as a block's `fit` is at least as large as the
block: `findNode` only accepts nodes with `width ≤ node.width && height ≤
node.height`. -/
theorem tryInsert_le {bw bh : ℚ} :
    ∀ {n n' : Node} {f : Box}, tryInsert n bw bh = some (n', f) →
      bw ≤ f.width ∧ bh ≤ f.height := by
  intro n
  induction n with
  | free x y w h =>
      intro n' f hins
      rw [tryInsert_free] at hins
      split_ifs at hins with hc
      · cases hins; exact hc
  | used x y w h r d ihr ihd =>
      intro n' f hins
      rcases hr : tryInsert r bw bh with _ | ⟨r2, f2⟩
      · rcases hd : tryInsert d bw bh with _ | ⟨d2, f2⟩
        · rw [tryInsert_used_none x y w h hr hd] at hins
          exact absurd hins (by simp)
        · rw [tryInsert_used_of_down x y w h hr hd] at hins
          cases hins; exact ihd hd
      · rw [tryInsert_used_of_right x y w h d hr] at hins
        cases hins; exact ihr hr

/-- Main specification of find-and-split on a well-formed tree with a block of
positive size: the new tree is well-formed, the block's footprint sits inside
the root box and inside the old free space, the free space only shrinks, and
the new free space avoids the footprint. -/
theorem tryInsert_spec {bw bh : ℚ} (hw : 0 < bw) (hh : 0 < bh) :
    ∀ {n n' : Node} {f : Box}, n.WF → tryInsert n bw bh = some (n', f) →
      n'.WF ∧ boxSub (footprint (bw, bh) f) n.box ∧
      openBox (footprint (bw, bh) f) ⊆ n.freeSet ∧
      n'.freeSet ⊆ n.freeSet ∧
      Disjoint n'.freeSet (openBox (footprint (bw, bh) f)) := by
  intro n
  induction n with
  | free x y w h =>
      intro n' f hwf hins
      rw [tryInsert_free] at hins
      split_ifs at hins with hc
      cases hins
      obtain ⟨hcw, hch⟩ := hc
      have hfp : boxSub (footprint (bw, bh) ⟨x, y, w, h⟩) (Node.free x y w h).box := by
        simp only [footprint_mk, Node.box_free]
        exact ⟨le_refl _, le_refl _, by linarith, by linarith⟩
      have hrbox : boxSub ⟨x + bw, y, w - bw, bh⟩ (⟨x, y, w, h⟩ : Box) :=
        ⟨by dsimp only; linarith, le_refl _, by dsimp only; linarith, by dsimp only; linarith⟩
      have hdbox : boxSub ⟨x, y + bh, w, h - bh⟩ (⟨x, y, w, h⟩ : Box) :=
        ⟨le_refl _, by dsimp only; linarith, by dsimp only; linarith, by dsimp only; linarith⟩
      refine ⟨?_, hfp, ?_, ?_, ?_⟩
      · simp only [splitNode, Node.x_free, Node.y_free, Node.width_free, Node.height_free,
          Node.WF_used, Node.box_free]
        exact ⟨hrbox, hdbox, Or.inr (Or.inr (Or.inl (by norm_num))), trivial, trivial⟩
      · simpa using openBox_mono hfp
      · simp only [splitNode, Node.x_free, Node.y_free, Node.width_free, Node.height_free,
          Node.freeSet_used, Node.freeSet_free]
        exact Set.union_subset (openBox_mono hrbox) (openBox_mono hdbox)
      · simp only [splitNode, Node.x_free, Node.y_free, Node.width_free, Node.height_free,
          Node.freeSet_used, Node.freeSet_free, Set.disjoint_union_left, footprint_mk]
        constructor
        · exact sepBox_disjoint (Or.inr (Or.inl (by norm_num)))
        · exact sepBox_disjoint (Or.inr (Or.inr (Or.inr (by norm_num))))
  | used x y w h r d ihr ihd =>
      intro n' f hwf hins
      obtain ⟨hrb, hdb, hsep, hwr, hwd⟩ := hwf
      rcases hr : tryInsert r bw bh with _ | ⟨r2, f2⟩
      · rcases hd : tryInsert d bw bh with _ | ⟨d2, f2⟩
        · rw [tryInsert_used_none x y w h hr hd] at hins
          exact absurd hins (by simp)
        · rw [tryInsert_used_of_down x y w h hr hd] at hins
          cases hins
          obtain ⟨ih_wf, ih_boxsub, ih_fpsub, ih_fsub, ih_disj⟩ := ihd hwd hd
          have hbox : d2.box = d.box := tryInsert_box hd
          refine ⟨?_, ?_, ?_, ?_, ?_⟩
          · rw [Node.WF_used, hbox]
            exact ⟨hrb, hdb, hsep, hwr, ih_wf⟩
          · rw [Node.box_used]
            exact boxSub_trans ih_boxsub hdb
          · rw [Node.freeSet_used]
            exact subset_trans ih_fpsub Set.subset_union_right
          · simp only [Node.freeSet_used]
            exact Set.union_subset_union (subset_refl _) ih_fsub
          · simp only [Node.freeSet_used, Set.disjoint_union_left]
            refine ⟨?_, ih_disj⟩
            exact Disjoint.mono (Node.freeSet_subset_box hwr)
              (subset_trans ih_fpsub (Node.freeSet_subset_box hwd))
              (sepBox_disjoint hsep)
      · rw [tryInsert_used_of_right x y w h d hr] at hins
        cases hins
        obtain ⟨ih_wf, ih_boxsub, ih_fpsub, ih_fsub, ih_disj⟩ := ihr hwr hr
        have hbox : r2.box = r.box := tryInsert_box hr
        refine ⟨?_, ?_, ?_, ?_, ?_⟩
        · rw [Node.WF_used, hbox]
          exact ⟨hrb, hdb, hsep, ih_wf, hwd⟩
        · rw [Node.box_used]
          exact boxSub_trans ih_boxsub hrb
        · rw [Node.freeSet_used]
          exact subset_trans ih_fpsub Set.subset_union_left
        · simp only [Node.freeSet_used]
          exact Set.union_subset_union ih_fsub (subset_refl _)
        · simp only [Node.freeSet_used, Set.disjoint_union_left]
          refine ⟨ih_disj, ?_⟩
          exact Disjoint.mono (Node.freeSet_subset_box hwd)
            (subset_trans ih_fpsub (Node.freeSet_subset_box hwr))
            ((sepBox_disjoint hsep).symm)

/-- A block can only be placed into a well-formed tree whose root box is at
least as large as the block. -/
theorem tryInsert_fits {bw bh : ℚ} {n n' : Node} {f : Box}
    (hw : 0 < bw) (hh : 0 < bh) (hwf : n.WF) (hins : tryInsert n bw bh = some (n', f)) :
    bw ≤ n.width ∧ bh ≤ n.height := by
  obtain ⟨_, hboxsub, _, _, _⟩ := tryInsert_spec hw hh hwf hins
  exact ⟨boxSub_width hboxsub, boxSub_height hboxsub⟩

theorem Node.box_origin {n : Node} (hx : n.x = 0) (hy : n.y = 0) :
    n.box = ⟨0, 0, n.width, n.height⟩ := by
  unfold Node.box; rw [hx, hy]

/-- Points strictly to the right of the root are outside its closed box. -/
theorem right_of_root_subset_compl (b : Box) (hx : b.x = 0) (bw nH : ℚ) :
    openBox ⟨b.width, 0, bw, nH⟩ ⊆ (closedBox b)ᶜ := by
  intro q hq
  simp only [Set.mem_compl_iff]
  intro hqc
  obtain ⟨q1, _, _, _⟩ := hq
  obtain ⟨_, c2, _, _⟩ := hqc
  rw [hx] at c2
  dsimp only at q1
  linarith

/-- Points strictly below the root are outside its closed box. -/
theorem below_root_subset_compl (b : Box) (hy : b.y = 0) (nW bh : ℚ) :
    openBox ⟨0, b.height, nW, bh⟩ ⊆ (closedBox b)ᶜ := by
  intro q hq
  simp only [Set.mem_compl_iff]
  intro hqc
  obtain ⟨_, _, q3, _⟩ := hq
  obtain ⟨_, _, _, c4⟩ := hqc
  rw [hy] at c4
  dsimp only at q3
  linarith

/-- `growRight` under the run invariant, for a block that can grow right
(`height ≤ root.height`): the placement always succeeds, in the fresh strip,
and the step contract holds. -/
theorem growRight_spec {p : GrowingPacker} {bw bh : ℚ}
    (hp : GPInv p) (hw : 0 < bw) (hh : 0 < bh) (hbh : bh ≤ p.root.height) :
    StepOk p (p.growRight bw bh).1 bw bh (p.growRight bw bh).2 := by
  obtain ⟨hA, hWpos, hHpos, hx0, hy0, hratio, hwf⟩ := hp
  have hA0 : 0 < p.aspect := lt_of_lt_of_le one_pos hA
  have hAne : p.aspect ≠ 0 := ne_of_gt hA0
  have hrb : p.root.box = ⟨0, 0, p.root.width, p.root.height⟩ := Node.box_origin hx0 hy0
  have hnH : (p.root.width + bw) * (1 / p.aspect) =
      p.root.height + bw * (1 / p.aspect) := by
    rw [hratio]; field_simp
  have hfrac : 0 < bw * (1 / p.aspect) := mul_pos hw (by positivity)
  have hHle : p.root.height ≤ (p.root.width + bw) * (1 / p.aspect) := by
    rw [hnH]; linarith
  have hbh2 : bh ≤ (p.root.width + bw) * (1 / p.aspect) := le_trans hbh hHle
  have hstrip : tryInsert
      (Node.free p.root.width 0 bw ((p.root.width + bw) * (1 / p.aspect))) bw bh =
      some (splitNode
          (Node.free p.root.width 0 bw ((p.root.width + bw) * (1 / p.aspect))) bw bh,
        ⟨p.root.width, 0, bw, (p.root.width + bw) * (1 / p.aspect)⟩) := by
    rw [tryInsert_free, if_pos ⟨le_refl bw, hbh2⟩]
  have hR : tryInsert
      (Node.used 0 0 (p.root.width + bw) ((p.root.width + bw) * (1 / p.aspect))
        (Node.free p.root.width 0 bw ((p.root.width + bw) * (1 / p.aspect))) p.root) bw bh =
      some (Node.used 0 0 (p.root.width + bw) ((p.root.width + bw) * (1 / p.aspect))
          (splitNode
            (Node.free p.root.width 0 bw ((p.root.width + bw) * (1 / p.aspect))) bw bh)
          p.root,
        ⟨p.root.width, 0, bw, (p.root.width + bw) * (1 / p.aspect)⟩) :=
    tryInsert_used_of_right _ _ _ _ p.root hstrip
  have hgrow : p.growRight bw bh =
      (⟨p.aspect,
        Node.used 0 0 (p.root.width + bw) ((p.root.width + bw) * (1 / p.aspect))
          (splitNode
            (Node.free p.root.width 0 bw ((p.root.width + bw) * (1 / p.aspect))) bw bh)
          p.root⟩,
       some ⟨p.root.width, 0, bw, (p.root.width + bw) * (1 / p.aspect)⟩) := by
    simp only [GrowingPacker.growRight, hR]
  have hRwf : (Node.used 0 0 (p.root.width + bw) ((p.root.width + bw) * (1 / p.aspect))
      (Node.free p.root.width 0 bw ((p.root.width + bw) * (1 / p.aspect))) p.root).WF := by
    rw [Node.WF_used]
    refine ⟨?_, ?_, ?_, trivial, hwf⟩
    · rw [Node.box_free]
      exact ⟨by dsimp only; linarith, by dsimp only; linarith,
        by dsimp only; linarith, by dsimp only; linarith⟩
    · rw [hrb]
      exact ⟨by dsimp only; linarith, by dsimp only; linarith,
        by dsimp only; linarith, by dsimp only; linarith⟩
    · rw [Node.box_free, hrb]
      exact Or.inr (Or.inl (by dsimp only; linarith))
  obtain ⟨swf, sboxsub, sfpsub, sfsub, sdisj⟩ := tryInsert_spec hw hh hRwf hR
  have hstripc : openBox ⟨p.root.width, 0, bw, (p.root.width + bw) * (1 / p.aspect)⟩ ⊆
      (closedBox p.root.box)ᶜ := by
    rw [hrb]
    exact right_of_root_subset_compl ⟨0, 0, p.root.width, p.root.height⟩ rfl bw
      ((p.root.width + bw) * (1 / p.aspect))
  have hRfree : (Node.used 0 0 (p.root.width + bw) ((p.root.width + bw) * (1 / p.aspect))
        (Node.free p.root.width 0 bw ((p.root.width + bw) * (1 / p.aspect))) p.root).freeSet ⊆
      p.root.freeSet ∪ (closedBox p.root.box)ᶜ := by
    rw [Node.freeSet_used, Node.freeSet_free]
    exact Set.union_subset (subset_trans hstripc Set.subset_union_right)
      Set.subset_union_left
  rw [hgrow]
  unfold StepOk
  refine ⟨?_, rfl, ?_, ?_, ?_, ?_, ?_⟩
  · refine ⟨hA, ?_, ?_, rfl, rfl, ?_, swf⟩
    · dsimp only [Node.width_used]; linarith
    · dsimp only [Node.height_used]; rw [hnH]; linarith
    · dsimp only [Node.width_used, Node.height_used]; field_simp
  · dsimp only [Node.width_used]; linarith
  · dsimp only [Node.height_used]; exact hHle
  · exact subset_trans sfsub hRfree
  · refine iff_of_false (by simp) ?_
    intro hcon
    exact absurd hcon.2 (not_lt.mpr hbh)
  · intro f hf
    cases hf
    refine ⟨by dsimp only; exact le_refl bw, by dsimp only; exact hbh2, ?_, sdisj, ?_⟩
    · exact sboxsub
    · exact subset_trans sfpsub hRfree

/-- `growDown` under the run invariant, for a block that can grow down
(`width ≤ root.width`), given that the search on the old root has already
failed: the placement always succeeds, in the fresh bottom strip, and the
step contract holds. -/
theorem growDown_spec {p : GrowingPacker} {bw bh : ℚ}
    (hp : GPInv p) (hw : 0 < bw) (hh : 0 < bh) (hbw : bw ≤ p.root.width)
    (hnone : tryInsert p.root bw bh = none) :
    StepOk p (p.growDown bw bh).1 bw bh (p.growDown bw bh).2 := by
  obtain ⟨hA, hWpos, hHpos, hx0, hy0, hratio, hwf⟩ := hp
  have hA0 : 0 < p.aspect := lt_of_lt_of_le one_pos hA
  have hAne : p.aspect ≠ 0 := ne_of_gt hA0
  have hrb : p.root.box = ⟨0, 0, p.root.width, p.root.height⟩ := Node.box_origin hx0 hy0
  have hnW : (p.root.height + bh) * p.aspect = p.root.width + bh * p.aspect := by
    rw [hratio]; ring
  have hfrac : bh ≤ bh * p.aspect := le_mul_of_one_le_right (le_of_lt hh) hA
  have hfrac0 : 0 < bh * p.aspect := mul_pos hh hA0
  have hWle : p.root.width ≤ (p.root.height + bh) * p.aspect := by
    rw [hnW]; linarith
  have hbw2 : bw ≤ (p.root.height + bh) * p.aspect := le_trans hbw hWle
  have hstrip : tryInsert
      (Node.free 0 p.root.height ((p.root.height + bh) * p.aspect) bh) bw bh =
      some (splitNode
          (Node.free 0 p.root.height ((p.root.height + bh) * p.aspect) bh) bw bh,
        ⟨0, p.root.height, (p.root.height + bh) * p.aspect, bh⟩) := by
    rw [tryInsert_free, if_pos ⟨hbw2, le_refl bh⟩]
  have hR : tryInsert
      (Node.used 0 0 ((p.root.height + bh) * p.aspect) (p.root.height + bh)
        p.root (Node.free 0 p.root.height ((p.root.height + bh) * p.aspect) bh)) bw bh =
      some (Node.used 0 0 ((p.root.height + bh) * p.aspect) (p.root.height + bh)
          p.root
          (splitNode
            (Node.free 0 p.root.height ((p.root.height + bh) * p.aspect) bh) bw bh),
        ⟨0, p.root.height, (p.root.height + bh) * p.aspect, bh⟩) :=
    tryInsert_used_of_down _ _ _ _ hnone hstrip
  have hgrow : p.growDown bw bh =
      (⟨p.aspect,
        Node.used 0 0 ((p.root.height + bh) * p.aspect) (p.root.height + bh)
          p.root
          (splitNode
            (Node.free 0 p.root.height ((p.root.height + bh) * p.aspect) bh) bw bh)⟩,
       some ⟨0, p.root.height, (p.root.height + bh) * p.aspect, bh⟩) := by
    simp only [GrowingPacker.growDown, hR]
  have hRwf : (Node.used 0 0 ((p.root.height + bh) * p.aspect) (p.root.height + bh)
      p.root (Node.free 0 p.root.height ((p.root.height + bh) * p.aspect) bh)).WF := by
    rw [Node.WF_used]
    refine ⟨?_, ?_, ?_, hwf, trivial⟩
    · rw [hrb]
      exact ⟨by dsimp only; linarith, by dsimp only; linarith,
        by dsimp only; linarith, by dsimp only; linarith⟩
    · rw [Node.box_free]
      exact ⟨by dsimp only; linarith, by dsimp only; linarith,
        by dsimp only; linarith, by dsimp only; linarith⟩
    · rw [Node.box_free, hrb]
      exact Or.inr (Or.inr (Or.inl (by dsimp only; linarith)))
  obtain ⟨swf, sboxsub, sfpsub, sfsub, sdisj⟩ := tryInsert_spec hw hh hRwf hR
  have hstripc : openBox ⟨0, p.root.height, (p.root.height + bh) * p.aspect, bh⟩ ⊆
      (closedBox p.root.box)ᶜ := by
    rw [hrb]
    exact below_root_subset_compl ⟨0, 0, p.root.width, p.root.height⟩ rfl
      ((p.root.height + bh) * p.aspect) bh
  have hRfree : (Node.used 0 0 ((p.root.height + bh) * p.aspect) (p.root.height + bh)
        p.root
        (Node.free 0 p.root.height ((p.root.height + bh) * p.aspect) bh)).freeSet ⊆
      p.root.freeSet ∪ (closedBox p.root.box)ᶜ := by
    rw [Node.freeSet_used, Node.freeSet_free]
    exact Set.union_subset Set.subset_union_left
      (subset_trans hstripc Set.subset_union_right)
  rw [hgrow]
  unfold StepOk
  refine ⟨?_, rfl, ?_, ?_, ?_, ?_, ?_⟩
  · refine ⟨hA, ?_, ?_, rfl, rfl, ?_, swf⟩
    · dsimp only [Node.width_used]; linarith
    · dsimp only [Node.height_used]; linarith
    · dsimp only [Node.width_used, Node.height_used]
  · dsimp only [Node.width_used]; exact hWle
  · dsimp only [Node.height_used]; linarith
  · exact subset_trans sfsub hRfree
  · refine iff_of_false (by simp) ?_
    intro hcon
    exact absurd hcon.1 (not_lt.mpr hbw)
  · intro f hf
    cases hf
    refine ⟨by dsimp only; exact hbw2, by dsimp only; exact le_refl bh, ?_, sdisj, ?_⟩
    · exact sboxsub
    · exact subset_trans sfpsub hRfree

/-- One full iteration of the growing `fit` loop satisfies the step
contract, from any state satisfying the run invariant. -/
theorem fitOne_spec {p : GrowingPacker} {bw bh : ℚ}
    (hp : GPInv p) (hw : 0 < bw) (hh : 0 < bh) :
    StepOk p (p.fitOne (bw, bh)).1 bw bh (p.fitOne (bw, bh)).2 := by
  rcases hins : tryInsert p.root bw bh with _ | ⟨r, f⟩
  · have hfit : p.fitOne (bw, bh) = p.growNode bw bh := by
      simp [GrowingPacker.fitOne, hins]
    rw [hfit]
    unfold GrowingPacker.growNode
    split_ifs with c1 c2 c3 c4
    · exact growRight_spec hp hw hh c1.1
    · exact growDown_spec hp hw hh c2.1 hins
    · exact growRight_spec hp hw hh c3
    · exact growDown_spec hp hw hh c4 hins
    · unfold StepOk
      refine ⟨hp, rfl, le_refl _, le_refl _, Set.subset_union_left, ?_, ?_⟩
      · exact iff_of_true rfl ⟨not_le.mp c4, not_le.mp c3⟩
      · intro f hf
        exact absurd hf (by simp)
  · have hfit : p.fitOne (bw, bh) = (⟨p.aspect, r⟩, some f) := by
      simp [GrowingPacker.fitOne, hins]
    rw [hfit]
    obtain ⟨swf, sboxsub, sfpsub, sfsub, sdisj⟩ := tryInsert_spec hw hh hp.wf hins
    have hbox : r.box = p.root.box := tryInsert_box hins
    have hwe : r.width = p.root.width := congrArg Box.width hbox
    have hhe : r.height = p.root.height := congrArg Box.height hbox
    have hxe : r.x = p.root.x := congrArg Box.x hbox
    have hye : r.y = p.root.y := congrArg Box.y hbox
    unfold StepOk
    refine ⟨?_, rfl, le_of_eq hwe.symm, le_of_eq hhe.symm, ?_, ?_, ?_⟩
    · exact ⟨hp.aspect_ge, by dsimp only; rw [hwe]; exact hp.wpos,
        by dsimp only; rw [hhe]; exact hp.hpos,
        by dsimp only; rw [hxe]; exact hp.x0,
        by dsimp only; rw [hye]; exact hp.y0,
        by dsimp only; rw [hwe, hhe]; exact hp.ratio, swf⟩
    · exact subset_trans sfsub Set.subset_union_left
    · refine iff_of_false (by simp) ?_
      intro hcon
      exact absurd hcon.1 (not_lt.mpr (tryInsert_fits hw hh hp.wf hins).1)
    · intro f2 hf2
      cases hf2
      refine ⟨(tryInsert_le hins).1, (tryInsert_le hins).2, ?_, sdisj, ?_⟩
      · dsimp only
        rw [hbox]
        exact sboxsub
      · exact subset_trans sfpsub Set.subset_union_left

/-- `GrowingPacker.init` establishes the run invariant whenever
`0 < height ≤ width`. -/
theorem GrowingPacker.init_inv {W H : ℚ} (hH : 0 < H) (hWH : H ≤ W) :
    GPInv (GrowingPacker.init W H) := by
  have hW : 0 < W := lt_of_lt_of_le hH hWH
  have hHne : H ≠ 0 := ne_of_gt hH
  have hWne : W ≠ 0 := ne_of_gt hW
  by_cases hc : W / H > 1
  · refine ⟨?_, ?_, ?_, ?_, ?_, ?_, ?_⟩ <;>
      simp only [GrowingPacker.init, hc, if_true, Node.width_free, Node.height_free,
        Node.x_free, Node.y_free, Node.WF_free]
    · exact le_of_lt hc
    · exact hW
    · exact hH
    · field_simp
  · have hEq : W = H := le_antisymm ((div_le_one hH).mp (not_lt.mp hc)) hWH
    subst hEq
    refine ⟨?_, ?_, ?_, ?_, ?_, ?_, ?_⟩ <;>
      simp only [GrowingPacker.init, ite_self, Node.width_free, Node.height_free,
        Node.x_free, Node.y_free, Node.WF_free]
    · rw [div_self hWne]
    · exact hW
    · exact hW
    · rw [div_self hWne, mul_one]

/-- The root boxes of two invariant states are nested when their dimensions
are ordered. -/
theorem rootBox_mono {p q : GrowingPacker} (hp : GPInv p) (hq : GPInv q)
    (hw : p.root.width ≤ q.root.width) (hh : p.root.height ≤ q.root.height) :
    boxSub p.root.box q.root.box := by
  rw [Node.box_origin hp.x0 hp.y0, Node.box_origin hq.x0 hq.y0]
  exact ⟨le_refl _, le_refl _, by dsimp only; linarith, by dsimp only; linarith⟩

theorem GrowingPacker.fit_cons (p : GrowingPacker) (b : ℚ × ℚ) (bs : List (ℚ × ℚ)) :
    p.fit (b :: bs) = ((GrowingPacker.fit (p.fitOne b).1 bs).1,
      (p.fitOne b).2 :: (GrowingPacker.fit (p.fitOne b).1 bs).2) := rfl

/-- State facts about a whole growing run: the invariant is preserved, the
aspect ratio never changes, the root only grows, one result per block, and
the final free space is inside the initial free space plus the region outside
the initial root. -/
theorem GrowingPacker.fit_state :
    ∀ (blocks : List (ℚ × ℚ)) (p : GrowingPacker), GPInv p →
      (∀ b ∈ blocks, 0 < b.1 ∧ 0 < b.2) →
      GPInv (p.fit blocks).1 ∧
      (p.fit blocks).1.aspect = p.aspect ∧
      p.root.width ≤ (p.fit blocks).1.root.width ∧
      p.root.height ≤ (p.fit blocks).1.root.height ∧
      (p.fit blocks).1.root.freeSet ⊆ p.root.freeSet ∪ (closedBox p.root.box)ᶜ ∧
      (p.fit blocks).2.length = blocks.length := by
  intro blocks
  induction blocks with
  | nil =>
      intro p hp hpos
      exact ⟨hp, rfl, le_refl _, le_refl _, Set.subset_union_left, rfl⟩
  | cons b bs ih =>
      intro p hp hpos
      have hb := hpos b (List.mem_cons_self b bs)
      have step := fitOne_spec hp hb.1 hb.2
      unfold StepOk at step
      obtain ⟨inv1, asp1, w1, h1, fs1, _, _⟩ := step
      obtain ⟨inv2, asp2, w2, h2, fs2, len2⟩ :=
        ih (p.fitOne b).1 inv1 (fun x hx => hpos x (List.mem_cons_of_mem b hx))
      have hcompl : (closedBox (p.fitOne b).1.root.box)ᶜ ⊆ (closedBox p.root.box)ᶜ :=
        Set.compl_subset_compl.mpr (closedBox_mono (rootBox_mono hp inv1 w1 h1))
      rw [GrowingPacker.fit_cons]
      refine ⟨inv2, asp2.trans asp1, le_trans w1 w2, le_trans h1 h2, ?_, by simp [len2]⟩
      refine subset_trans fs2 (Set.union_subset ?_ ?_)
      · exact fs1
      · exact subset_trans hcompl Set.subset_union_right

/-- Per-block facts about a whole growing run: a placed footprint fits the
block, lies inside the final root box, is avoided by the final free space,
and was taken from the initial free space or from outside the initial root
box. -/
theorem GrowingPacker.fit_placed :
    ∀ (blocks : List (ℚ × ℚ)) (p : GrowingPacker), GPInv p →
      (∀ b ∈ blocks, 0 < b.1 ∧ 0 < b.2) →
      ∀ i b f, blocks.get? i = some b → (p.fit blocks).2.get? i = some (some f) →
        b.1 ≤ f.width ∧ b.2 ≤ f.height ∧
        boxSub (footprint b f) (p.fit blocks).1.root.box ∧
        Disjoint (p.fit blocks).1.root.freeSet (openBox (footprint b f)) ∧
        openBox (footprint b f) ⊆ p.root.freeSet ∪ (closedBox p.root.box)ᶜ := by
  intro blocks
  induction blocks with
  | nil =>
      intro p _ _ i b f hb _
      exact absurd hb (by simp)
  | cons b0 bs ih =>
      intro p hp hpos i b f hb hf
      have hb0 := hpos b0 (List.mem_cons_self b0 bs)
      have step := fitOne_spec hp hb0.1 hb0.2
      unfold StepOk at step
      obtain ⟨inv1, _, w1, h1, fs1, _, pl1⟩ := step
      have hpos' : ∀ x ∈ bs, 0 < x.1 ∧ 0 < x.2 :=
        fun x hx => hpos x (List.mem_cons_of_mem b0 hx)
      have hcompl : (closedBox (p.fitOne b0).1.root.box)ᶜ ⊆ (closedBox p.root.box)ᶜ :=
        Set.compl_subset_compl.mpr (closedBox_mono (rootBox_mono hp inv1 w1 h1))
      rw [GrowingPacker.fit_cons] at hf ⊢
      match i with
  | 0 =>
      rw [List.get?_cons_zero] at hb hf
      cases hb
      have hres : (p.fitOne b0).2 = some f := by
        have := hf
        simpa using this
      obtain ⟨d1, d2, dbox, ddisj, dfrom⟩ := pl1 f hres
      obtain ⟨inv2, _, w2, h2, fs2, _⟩ := GrowingPacker.fit_state bs (p.fitOne b0).1 inv1 hpos'
      refine ⟨d1, d2, ?_, ?_, dfrom⟩
      · exact boxSub_trans dbox (rootBox_mono inv1 inv2 w2 h2)
      · refine Disjoint.mono_left fs2 ?_
        rw [Set.disjoint_union_left]
        refine ⟨ddisj, ?_⟩
        refine disjoint_compl_closed ?_
        exact subset_trans (openBox_mono dbox)
          (openBox_subset_closedBox (p.fitOne b0).1.root.box)
  | Nat.succ j =>
      rw [List.get?_cons_succ] at hb hf
      obtain ⟨d1, d2, dbox, ddisj, dfrom⟩ := ih (p.fitOne b0).1 inv1 hpos' j b f hb hf
      refine ⟨d1, d2, dbox, ddisj, ?_⟩
      refine subset_trans dfrom (Set.union_subset fs1 ?_)
      exact subset_trans hcompl Set.subset_union_right

theorem GrowingPacker.fit_append :
    ∀ (l1 l2 : List (ℚ × ℚ)) (p : GrowingPacker),
      p.fit (l1 ++ l2) = ((GrowingPacker.fit (p.fit l1).1 l2).1,
        (p.fit l1).2 ++ (GrowingPacker.fit (p.fit l1).1 l2).2) := by
  intro l1
  induction l1 with
  | nil => intro l2 p; rfl
  | cons b bs ih =>
      intro l2 p
      simp only [List.cons_append, GrowingPacker.fit_cons, ih, List.append_eq]

theorem Packer.fit_cons_fixed (root : Node) (b : ℚ × ℚ) (bs : List (ℚ × ℚ)) :
    Packer.fit root (b :: bs) = ((Packer.fit (Packer.fitOne root b).1 bs).1,
      (Packer.fitOne root b).2 :: (Packer.fit (Packer.fitOne root b).1 bs).2) := rfl

/-- One iteration of the fixed packer's loop on a well-formed tree. -/
theorem Packer.fitOne_spec_fixed {root : Node} {bw bh : ℚ}
    (hwf : root.WF) (hw : 0 < bw) (hh : 0 < bh) :
    (Packer.fitOne root (bw, bh)).1.WF ∧
    (Packer.fitOne root (bw, bh)).1.box = root.box ∧
    (Packer.fitOne root (bw, bh)).1.freeSet ⊆ root.freeSet ∧
    ∀ f, (Packer.fitOne root (bw, bh)).2 = some f →
      bw ≤ f.width ∧ bh ≤ f.height ∧
      boxSub (footprint (bw, bh) f) root.box ∧
      Disjoint (Packer.fitOne root (bw, bh)).1.freeSet (openBox (footprint (bw, bh) f)) ∧
      openBox (footprint (bw, bh) f) ⊆ root.freeSet := by
  rcases hins : tryInsert root bw bh with _ | ⟨r, f⟩
  · have hfit : Packer.fitOne root (bw, bh) = (root, none) := by
      simp [Packer.fitOne, hins]
    rw [hfit]
    exact ⟨hwf, rfl, subset_refl _, fun f hf => absurd hf (by simp)⟩
  · have hfit : Packer.fitOne root (bw, bh) = (r, some f) := by
      simp [Packer.fitOne, hins]
    rw [hfit]
    obtain ⟨swf, sboxsub, sfpsub, sfsub, sdisj⟩ := tryInsert_spec hw hh hwf hins
    refine ⟨swf, tryInsert_box hins, sfsub, ?_⟩
    intro f2 hf2
    cases hf2
    exact ⟨(tryInsert_le hins).1, (tryInsert_le hins).2, sboxsub, sdisj, sfpsub⟩

/-- State facts about a whole fixed-packer run: well-formedness is preserved,
the root box never changes, and the free space only shrinks. -/
theorem Packer.fit_state_fixed :
    ∀ (blocks : List (ℚ × ℚ)) (root : Node), root.WF →
      (∀ b ∈ blocks, 0 < b.1 ∧ 0 < b.2) →
      (Packer.fit root blocks).1.WF ∧
      (Packer.fit root blocks).1.box = root.box ∧
      (Packer.fit root blocks).1.freeSet ⊆ root.freeSet ∧
      (Packer.fit root blocks).2.length = blocks.length := by
  intro blocks
  induction blocks with
  | nil =>
      intro root hwf _
      exact ⟨hwf, rfl, subset_refl _, rfl⟩
  | cons b bs ih =>
      intro root hwf hpos
      have hb := hpos b (List.mem_cons_self b bs)
      obtain ⟨swf, sbox, sfs, _⟩ := Packer.fitOne_spec_fixed hwf hb.1 hb.2
      obtain ⟨iwf, ibox, ifs, ilen⟩ :=
        ih (Packer.fitOne root b).1 swf (fun x hx => hpos x (List.mem_cons_of_mem b hx))
      rw [Packer.fit_cons_fixed]
      exact ⟨iwf, ibox.trans sbox, subset_trans ifs sfs, by simp [ilen]⟩

/-- Per-block facts about a whole fixed-packer run. -/
theorem Packer.fit_placed_fixed :
    ∀ (blocks : List (ℚ × ℚ)) (root : Node), root.WF →
      (∀ b ∈ blocks, 0 < b.1 ∧ 0 < b.2) →
      ∀ i b f, blocks.get? i = some b →
        (Packer.fit root blocks).2.get? i = some (some f) →
        b.1 ≤ f.width ∧ b.2 ≤ f.height ∧
        boxSub (footprint b f) root.box ∧
        Disjoint (Packer.fit root blocks).1.freeSet (openBox (footprint b f)) ∧
        openBox (footprint b f) ⊆ root.freeSet := by
  intro blocks
  induction blocks with
  | nil =>
      intro root _ _ i b f hb _
      exact absurd hb (by simp)
  | cons b0 bs ih =>
      intro root hwf hpos i b f hb hf
      have hb0 := hpos b0 (List.mem_cons_self b0 bs)
      obtain ⟨swf, sbox, sfs, pl⟩ := Packer.fitOne_spec_fixed hwf hb0.1 hb0.2
      have hpos' : ∀ x ∈ bs, 0 < x.1 ∧ 0 < x.2 :=
        fun x hx => hpos x (List.mem_cons_of_mem b0 hx)
      rw [Packer.fit_cons_fixed] at hf ⊢
      match i with
  | 0 =>
      rw [List.get?_cons_zero] at hb hf
      cases hb
      have hres : (Packer.fitOne root b0).2 = some f := by
        simpa using hf
      obtain ⟨d1, d2, dbox, ddisj, dfrom⟩ := pl f hres
      obtain ⟨_, _, ifs, _⟩ := Packer.fit_state_fixed bs (Packer.fitOne root b0).1 swf hpos'
      exact ⟨d1, d2, dbox, Disjoint.mono_left ifs ddisj, dfrom⟩
  | Nat.succ j =>
      rw [List.get?_cons_succ] at hb hf
      obtain ⟨d1, d2, dbox, ddisj, dfrom⟩ :=
        ih (Packer.fitOne root b0).1 swf hpos' j b f hb hf
      refine ⟨d1, d2, ?_, ddisj, subset_trans dfrom sfs⟩
      rw [← sbox]
      exact dbox

theorem Packer.fit_append_fixed :
    ∀ (l1 l2 : List (ℚ × ℚ)) (root : Node),
      Packer.fit root (l1 ++ l2) = ((Packer.fit (Packer.fit root l1).1 l2).1,
        (Packer.fit root l1).2 ++ (Packer.fit (Packer.fit root l1).1 l2).2) := by
  intro l1
  induction l1 with
  | nil => intro l2 root; rfl
  | cons b bs ih =>
      intro l2 root
      simp only [List.cons_append, Packer.fit_cons_fixed, ih, List.append_eq]

/-! ### Non-negativity of all node dimensions -/

theorem Node.nonneg_free (x y w h : ℚ) :
    (Node.free x y w h).nonneg ↔ 0 ≤ w ∧ 0 ≤ h := Iff.rfl

theorem Node.nonneg_width {n : Node} (h : n.nonneg) : 0 ≤ n.width := by
  cases n
  · exact h.1
  · exact h.1

theorem Node.nonneg_height {n : Node} (h : n.nonneg) : 0 ≤ n.height := by
  cases n
  · exact h.2
  · exact h.2.1

theorem tryInsert_nonneg {bw bh : ℚ} (hw : 0 ≤ bw) (hh : 0 ≤ bh) :
    ∀ {n n' : Node} {f : Box}, n.nonneg → tryInsert n bw bh = some (n', f) →
      n'.nonneg := by
  intro n
  induction n with
  | free x y w h =>
      intro n' f hn hins
      rw [tryInsert_free] at hins
      split_ifs at hins with hc
      cases hins
      simp only [splitNode, Node.x_free, Node.y_free, Node.width_free, Node.height_free,
        Node.nonneg_used, Node.nonneg_free]
      exact ⟨hn.1, hn.2, ⟨by linarith [hc.1], hh⟩, ⟨hn.1, by linarith [hc.2]⟩⟩
  | used x y w h r d ihr ihd =>
      intro n' f hn hins
      obtain ⟨hnw, hnh, hnr, hnd⟩ := hn
      rcases hr : tryInsert r bw bh with _ | ⟨r2, f2⟩
      · rcases hd : tryInsert d bw bh with _ | ⟨d2, f2⟩
        · rw [tryInsert_used_none x y w h hr hd] at hins
          exact absurd hins (by simp)
        · rw [tryInsert_used_of_down x y w h hr hd] at hins
          cases hins
          exact ⟨hnw, hnh, hnr, ihd hnd hd⟩
      · rw [tryInsert_used_of_right x y w h d hr] at hins
        cases hins
        exact ⟨hnw, hnh, ihr hnr hr, hnd⟩

theorem GrowingPacker.growRight_nonneg {p : GrowingPacker} {bw bh : ℚ}
    (ha : 0 < p.aspect) (hn : p.root.nonneg) (hw : 0 ≤ bw) (hh : 0 ≤ bh) :
    (p.growRight bw bh).1.root.nonneg ∧ (p.growRight bw bh).1.aspect = p.aspect := by
  have hW := Node.nonneg_width hn
  have h1 : (0:ℚ) ≤ p.root.width + bw := by linarith
  have h2 : (0:ℚ) ≤ (p.root.width + bw) * (1 / p.aspect) :=
    mul_nonneg h1 (by positivity)
  have hRn : (Node.used 0 0 (p.root.width + bw) ((p.root.width + bw) * (1 / p.aspect))
      (Node.free p.root.width 0 bw ((p.root.width + bw) * (1 / p.aspect)))
      p.root).nonneg :=
    ⟨h1, h2, ⟨hw, h2⟩, hn⟩
  rcases hins : tryInsert (Node.used 0 0 (p.root.width + bw)
      ((p.root.width + bw) * (1 / p.aspect))
      (Node.free p.root.width 0 bw ((p.root.width + bw) * (1 / p.aspect)))
      p.root) bw bh with _ | ⟨r, f⟩
  · have hfit : p.growRight bw bh = (⟨p.aspect,
        Node.used 0 0 (p.root.width + bw) ((p.root.width + bw) * (1 / p.aspect))
          (Node.free p.root.width 0 bw ((p.root.width + bw) * (1 / p.aspect)))
          p.root⟩, none) := by
      simp only [GrowingPacker.growRight, hins]
    rw [hfit]
    exact ⟨hRn, rfl⟩
  · have hfit : p.growRight bw bh = (⟨p.aspect, r⟩, some f) := by
      simp only [GrowingPacker.growRight, hins]
    rw [hfit]
    exact ⟨tryInsert_nonneg hw hh hRn hins, rfl⟩

theorem GrowingPacker.growDown_nonneg {p : GrowingPacker} {bw bh : ℚ}
    (ha : 0 < p.aspect) (hn : p.root.nonneg) (hw : 0 ≤ bw) (hh : 0 ≤ bh) :
    (p.growDown bw bh).1.root.nonneg ∧ (p.growDown bw bh).1.aspect = p.aspect := by
  have hH := Node.nonneg_height hn
  have h1 : (0:ℚ) ≤ p.root.height + bh := by linarith
  have h2 : (0:ℚ) ≤ (p.root.height + bh) * p.aspect :=
    mul_nonneg h1 (le_of_lt ha)
  have hRn : (Node.used 0 0 ((p.root.height + bh) * p.aspect) (p.root.height + bh)
      p.root
      (Node.free 0 p.root.height ((p.root.height + bh) * p.aspect) bh)).nonneg :=
    ⟨h2, h1, hn, ⟨h2, hh⟩⟩
  rcases hins : tryInsert (Node.used 0 0 ((p.root.height + bh) * p.aspect)
      (p.root.height + bh) p.root
      (Node.free 0 p.root.height ((p.root.height + bh) * p.aspect) bh)) bw bh
      with _ | ⟨r, f⟩
  · have hfit : p.growDown bw bh = (⟨p.aspect,
        Node.used 0 0 ((p.root.height + bh) * p.aspect) (p.root.height + bh)
          p.root
          (Node.free 0 p.root.height ((p.root.height + bh) * p.aspect) bh)⟩, none) := by
      simp only [GrowingPacker.growDown, hins]
    rw [hfit]
    exact ⟨hRn, rfl⟩
  · have hfit : p.growDown bw bh = (⟨p.aspect, r⟩, some f) := by
      simp only [GrowingPacker.growDown, hins]
    rw [hfit]
    exact ⟨tryInsert_nonneg hw hh hRn hins, rfl⟩

theorem GrowingPacker.fitOne_nonneg {p : GrowingPacker} {bw bh : ℚ}
    (ha : 0 < p.aspect) (hn : p.root.nonneg) (hw : 0 ≤ bw) (hh : 0 ≤ bh) :
    (p.fitOne (bw, bh)).1.root.nonneg ∧ (p.fitOne (bw, bh)).1.aspect = p.aspect := by
  rcases hins : tryInsert p.root bw bh with _ | ⟨r, f⟩
  · have hfit : p.fitOne (bw, bh) = p.growNode bw bh := by
      simp [GrowingPacker.fitOne, hins]
    rw [hfit]
    unfold GrowingPacker.growNode
    split_ifs with c1 c2 c3 c4
    · exact GrowingPacker.growRight_nonneg ha hn hw hh
    · exact GrowingPacker.growDown_nonneg ha hn hw hh
    · exact GrowingPacker.growRight_nonneg ha hn hw hh
    · exact GrowingPacker.growDown_nonneg ha hn hw hh
    · exact ⟨hn, rfl⟩
  · have hfit : p.fitOne (bw, bh) = (⟨p.aspect, r⟩, some f) := by
      simp [GrowingPacker.fitOne, hins]
    rw [hfit]
    exact ⟨tryInsert_nonneg hw hh hn hins, rfl⟩

theorem GrowingPacker.fit_nonneg :
    ∀ (blocks : List (ℚ × ℚ)) (p : GrowingPacker), 0 < p.aspect → p.root.nonneg →
      (∀ b ∈ blocks, 0 < b.1 ∧ 0 < b.2) →
      (p.fit blocks).1.root.nonneg := by
  intro blocks
  induction blocks with
  | nil => intro p _ hn _; exact hn
  | cons b bs ih =>
      intro p ha hn hpos
      have hb := hpos b (List.mem_cons_self b bs)
      obtain ⟨sn, sa⟩ := GrowingPacker.fitOne_nonneg ha hn (le_of_lt hb.1) (le_of_lt hb.2)
      rw [GrowingPacker.fit_cons]
      exact ih (p.fitOne b).1 (sa ▸ ha) sn
        (fun x hx => hpos x (List.mem_cons_of_mem b hx))

theorem Packer.fit_nonneg_fixed :
    ∀ (blocks : List (ℚ × ℚ)) (root : Node), root.nonneg →
      (∀ b ∈ blocks, 0 < b.1 ∧ 0 < b.2) →
      (Packer.fit root blocks).1.nonneg := by
  intro blocks
  induction blocks with
  | nil => intro root hn _; exact hn
  | cons b bs ih =>
      intro root hn hpos
      have hb := hpos b (List.mem_cons_self b bs)
      have hstep : (Packer.fitOne root b).1.nonneg := by
        rcases hins : tryInsert root b.1 b.2 with _ | ⟨r, f⟩
        · have hfit : Packer.fitOne root b = (root, none) := by
            simp [Packer.fitOne, hins]
          rw [hfit]
          exact hn
        · have hfit : Packer.fitOne root b = (r, some f) := by
            simp [Packer.fitOne, hins]
          rw [hfit]
          exact tryInsert_nonneg (le_of_lt hb.1) (le_of_lt hb.2) hn hins
      rw [Packer.fit_cons_fixed]
      exact ih (Packer.fitOne root b).1 hstep
        (fun x hx => hpos x (List.mem_cons_of_mem b hx))

theorem GrowingPacker.fit_length :
    ∀ (blocks : List (ℚ × ℚ)) (p : GrowingPacker),
      (p.fit blocks).2.length = blocks.length := by
  intro blocks
  induction blocks with
  | nil => intro p; rfl
  | cons b bs ih =>
      intro p
      rw [GrowingPacker.fit_cons]
      simp [ih]

/-! ### Children of used nodes never overlap -/

theorem Node.childrenDisjoint_free (x y w h : ℚ) :
    (Node.free x y w h).childrenDisjoint := trivial

theorem tryInsert_childrenDisjoint {bw bh : ℚ} :
    ∀ {n n' : Node} {f : Box}, n.childrenDisjoint → tryInsert n bw bh = some (n', f) →
      n'.childrenDisjoint := by
  intro n
  induction n with
  | free x y w h =>
      intro n' f _ hins
      rw [tryInsert_free] at hins
      split_ifs at hins with hc
      cases hins
      simp only [splitNode, Node.x_free, Node.y_free, Node.width_free, Node.height_free,
        Node.childrenDisjoint_used, Node.box_free]
      exact ⟨sepBox_disjoint (Or.inr (Or.inr (Or.inl (by dsimp only; linarith)))),
        trivial, trivial⟩
  | used x y w h r d ihr ihd =>
      intro n' f hcd hins
      obtain ⟨hdis, hcr, hcd2⟩ := hcd
      rcases hr : tryInsert r bw bh with _ | ⟨r2, f2⟩
      · rcases hd : tryInsert d bw bh with _ | ⟨d2, f2⟩
        · rw [tryInsert_used_none x y w h hr hd] at hins
          exact absurd hins (by simp)
        · rw [tryInsert_used_of_down x y w h hr hd] at hins
          cases hins
          refine ⟨?_, hcr, ihd hcd2 hd⟩
          rw [tryInsert_box hd]
          exact hdis
      · rw [tryInsert_used_of_right x y w h d hr] at hins
        cases hins
        refine ⟨?_, ihr hcr hr, hcd2⟩
        rw [tryInsert_box hr]
        exact hdis

theorem GrowingPacker.growRight_shape {p : GrowingPacker} {bw bh : ℚ}
    (hx : p.root.x = 0) (hy : p.root.y = 0) (hc : p.root.childrenDisjoint) :
    (p.growRight bw bh).1.root.childrenDisjoint ∧
    (p.growRight bw bh).1.root.x = 0 ∧ (p.growRight bw bh).1.root.y = 0 := by
  have hRc : (Node.used 0 0 (p.root.width + bw) ((p.root.width + bw) * (1 / p.aspect))
      (Node.free p.root.width 0 bw ((p.root.width + bw) * (1 / p.aspect)))
      p.root).childrenDisjoint := by
    refine ⟨?_, trivial, hc⟩
    rw [Node.box_free, Node.box_origin hx hy]
    exact sepBox_disjoint (Or.inr (Or.inl (by dsimp only; linarith)))
  rcases hins : tryInsert (Node.used 0 0 (p.root.width + bw)
      ((p.root.width + bw) * (1 / p.aspect))
      (Node.free p.root.width 0 bw ((p.root.width + bw) * (1 / p.aspect)))
      p.root) bw bh with _ | ⟨r, f⟩
  · have hfit : p.growRight bw bh = (⟨p.aspect,
        Node.used 0 0 (p.root.width + bw) ((p.root.width + bw) * (1 / p.aspect))
          (Node.free p.root.width 0 bw ((p.root.width + bw) * (1 / p.aspect)))
          p.root⟩, none) := by
      simp only [GrowingPacker.growRight, hins]
    rw [hfit]
    exact ⟨hRc, rfl, rfl⟩
  · have hfit : p.growRight bw bh = (⟨p.aspect, r⟩, some f) := by
      simp only [GrowingPacker.growRight, hins]
    rw [hfit]
    have hbox := tryInsert_box hins
    exact ⟨tryInsert_childrenDisjoint hRc hins,
      congrArg Box.x hbox, congrArg Box.y hbox⟩

theorem GrowingPacker.growDown_shape {p : GrowingPacker} {bw bh : ℚ}
    (hx : p.root.x = 0) (hy : p.root.y = 0) (hc : p.root.childrenDisjoint) :
    (p.growDown bw bh).1.root.childrenDisjoint ∧
    (p.growDown bw bh).1.root.x = 0 ∧ (p.growDown bw bh).1.root.y = 0 := by
  have hRc : (Node.used 0 0 ((p.root.height + bh) * p.aspect) (p.root.height + bh)
      p.root
      (Node.free 0 p.root.height ((p.root.height + bh) * p.aspect) bh)).childrenDisjoint := by
    refine ⟨?_, hc, trivial⟩
    rw [Node.box_free, Node.box_origin hx hy]
    exact sepBox_disjoint (Or.inr (Or.inr (Or.inl (by dsimp only; linarith))))
  rcases hins : tryInsert (Node.used 0 0 ((p.root.height + bh) * p.aspect)
      (p.root.height + bh) p.root
      (Node.free 0 p.root.height ((p.root.height + bh) * p.aspect) bh)) bw bh
      with _ | ⟨r, f⟩
  · have hfit : p.growDown bw bh = (⟨p.aspect,
        Node.used 0 0 ((p.root.height + bh) * p.aspect) (p.root.height + bh)
          p.root
          (Node.free 0 p.root.height ((p.root.height + bh) * p.aspect) bh)⟩, none) := by
      simp only [GrowingPacker.growDown, hins]
    rw [hfit]
    exact ⟨hRc, rfl, rfl⟩
  · have hfit : p.growDown bw bh = (⟨p.aspect, r⟩, some f) := by
      simp only [GrowingPacker.growDown, hins]
    rw [hfit]
    have hbox := tryInsert_box hins
    exact ⟨tryInsert_childrenDisjoint hRc hins,
      congrArg Box.x hbox, congrArg Box.y hbox⟩

theorem GrowingPacker.fitOne_shape {p : GrowingPacker} {bw bh : ℚ}
    (hx : p.root.x = 0) (hy : p.root.y = 0) (hc : p.root.childrenDisjoint) :
    (p.fitOne (bw, bh)).1.root.childrenDisjoint ∧
    (p.fitOne (bw, bh)).1.root.x = 0 ∧ (p.fitOne (bw, bh)).1.root.y = 0 := by
  rcases hins : tryInsert p.root bw bh with _ | ⟨r, f⟩
  · have hfit : p.fitOne (bw, bh) = p.growNode bw bh := by
      simp [GrowingPacker.fitOne, hins]
    rw [hfit]
    unfold GrowingPacker.growNode
    split_ifs
    · exact GrowingPacker.growRight_shape hx hy hc
    · exact GrowingPacker.growDown_shape hx hy hc
    · exact GrowingPacker.growRight_shape hx hy hc
    · exact GrowingPacker.growDown_shape hx hy hc
    · exact ⟨hc, hx, hy⟩
  · have hfit : p.fitOne (bw, bh) = (⟨p.aspect, r⟩, some f) := by
      simp [GrowingPacker.fitOne, hins]
    rw [hfit]
    have hbox := tryInsert_box hins
    refine ⟨tryInsert_childrenDisjoint hc hins, ?_, ?_⟩
    · rw [show r.x = p.root.x from congrArg Box.x hbox]
      exact hx
    · rw [show r.y = p.root.y from congrArg Box.y hbox]
      exact hy

theorem GrowingPacker.fit_shape :
    ∀ (blocks : List (ℚ × ℚ)) (p : GrowingPacker),
      p.root.x = 0 → p.root.y = 0 → p.root.childrenDisjoint →
      (p.fit blocks).1.root.childrenDisjoint := by
  intro blocks
  induction blocks with
  | nil => intro p _ _ hc; exact hc
  | cons b bs ih =>
      intro p hx hy hc
      obtain ⟨sc, sx, sy⟩ := GrowingPacker.fitOne_shape hx hy hc
      rw [GrowingPacker.fit_cons]
      exact ih (p.fitOne b).1 sx sy sc

theorem Packer.fit_childrenDisjoint :
    ∀ (blocks : List (ℚ × ℚ)) (root : Node), root.childrenDisjoint →
      (Packer.fit root blocks).1.childrenDisjoint := by
  intro blocks
  induction blocks with
  | nil => intro root hc; exact hc
  | cons b bs ih =>
      intro root hc
      have hstep : (Packer.fitOne root b).1.childrenDisjoint := by
        rcases hins : tryInsert root b.1 b.2 with _ | ⟨r, f⟩
        · have hfit : Packer.fitOne root b = (root, none) := by
            simp [Packer.fitOne, hins]
          rw [hfit]
          exact hc
        · have hfit : Packer.fitOne root b = (r, some f) := by
            simp [Packer.fitOne, hins]
          rw [hfit]
          exact tryInsert_childrenDisjoint hc hins
      rw [Packer.fit_cons_fixed]
      exact ih (Packer.fitOne root b).1 hstep

/-! ### The fit node is at least the block's size, unconditionally -/

theorem Packer.fitOne_le_fixed {root : Node} {bw bh : ℚ} {f : Box}
    (h : (Packer.fitOne root (bw, bh)).2 = some f) :
    bw ≤ f.width ∧ bh ≤ f.height := by
  rcases hins : tryInsert root bw bh with _ | ⟨r, f2⟩
  · rw [show Packer.fitOne root (bw, bh) = (root, none) from by
      simp [Packer.fitOne, hins]] at h
    exact absurd h (by simp)
  · rw [show Packer.fitOne root (bw, bh) = (r, some f2) from by
      simp [Packer.fitOne, hins]] at h
    cases h
    exact tryInsert_le hins

theorem GrowingPacker.growRight_le {p : GrowingPacker} {bw bh : ℚ} {f : Box}
    (h : (p.growRight bw bh).2 = some f) : bw ≤ f.width ∧ bh ≤ f.height := by
  rcases hins : tryInsert (Node.used 0 0 (p.root.width + bw)
      ((p.root.width + bw) * (1 / p.aspect))
      (Node.free p.root.width 0 bw ((p.root.width + bw) * (1 / p.aspect)))
      p.root) bw bh with _ | ⟨r, f2⟩
  · rw [show p.growRight bw bh = (⟨p.aspect,
        Node.used 0 0 (p.root.width + bw) ((p.root.width + bw) * (1 / p.aspect))
          (Node.free p.root.width 0 bw ((p.root.width + bw) * (1 / p.aspect)))
          p.root⟩, none) from by simp only [GrowingPacker.growRight, hins]] at h
    exact absurd h (by simp)
  · rw [show p.growRight bw bh = (⟨p.aspect, r⟩, some f2) from by
      simp only [GrowingPacker.growRight, hins]] at h
    cases h
    exact tryInsert_le hins

theorem GrowingPacker.growDown_le {p : GrowingPacker} {bw bh : ℚ} {f : Box}
    (h : (p.growDown bw bh).2 = some f) : bw ≤ f.width ∧ bh ≤ f.height := by
  rcases hins : tryInsert (Node.used 0 0 ((p.root.height + bh) * p.aspect)
      (p.root.height + bh) p.root
      (Node.free 0 p.root.height ((p.root.height + bh) * p.aspect) bh)) bw bh
      with _ | ⟨r, f2⟩
  · rw [show p.growDown bw bh = (⟨p.aspect,
        Node.used 0 0 ((p.root.height + bh) * p.aspect) (p.root.height + bh)
          p.root
          (Node.free 0 p.root.height ((p.root.height + bh) * p.aspect) bh)⟩, none) from by
      simp only [GrowingPacker.growDown, hins]] at h
    exact absurd h (by simp)
  · rw [show p.growDown bw bh = (⟨p.aspect, r⟩, some f2) from by
      simp only [GrowingPacker.growDown, hins]] at h
    cases h
    exact tryInsert_le hins

theorem GrowingPacker.fitOne_le {p : GrowingPacker} {bw bh : ℚ} {f : Box}
    (h : (p.fitOne (bw, bh)).2 = some f) : bw ≤ f.width ∧ bh ≤ f.height := by
  rcases hins : tryInsert p.root bw bh with _ | ⟨r, f2⟩
  · rw [show p.fitOne (bw, bh) = p.growNode bw bh from by
      simp [GrowingPacker.fitOne, hins]] at h
    unfold GrowingPacker.growNode at h
    split_ifs at h
    · exact GrowingPacker.growRight_le h
    · exact GrowingPacker.growDown_le h
    · exact GrowingPacker.growRight_le h
    · exact GrowingPacker.growDown_le h
  · rw [show p.fitOne (bw, bh) = (⟨p.aspect, r⟩, some f2) from by
      simp [GrowingPacker.fitOne, hins]] at h
    cases h
    exact tryInsert_le hins

theorem Packer.fit_le_fixed :
    ∀ (blocks : List (ℚ × ℚ)) (root : Node) (i : ℕ) (b : ℚ × ℚ) (f : Box),
      blocks.get? i = some b → (Packer.fit root blocks).2.get? i = some (some f) →
      b.1 ≤ f.width ∧ b.2 ≤ f.height := by
  intro blocks
  induction blocks with
  | nil => intro root i b f hb _; exact absurd hb (by simp)
  | cons b0 bs ih =>
      intro root i b f hb hf
      rw [Packer.fit_cons_fixed] at hf
      match i with
  | 0 =>
      rw [List.get?_cons_zero] at hb hf
      cases hb
      have hres : (Packer.fitOne root b0).2 = some f := by simpa using hf
      exact Packer.fitOne_le_fixed hres
  | Nat.succ j =>
      rw [List.get?_cons_succ] at hb hf
      exact ih (Packer.fitOne root b0).1 j b f hb hf

theorem GrowingPacker.fit_le :
    ∀ (blocks : List (ℚ × ℚ)) (p : GrowingPacker) (i : ℕ) (b : ℚ × ℚ) (f : Box),
      blocks.get? i = some b → (p.fit blocks).2.get? i = some (some f) →
      b.1 ≤ f.width ∧ b.2 ≤ f.height := by
  intro blocks
  induction blocks with
  | nil => intro p i b f hb _; exact absurd hb (by simp)
  | cons b0 bs ih =>
      intro p i b f hb hf
      rw [GrowingPacker.fit_cons] at hf
      match i with
  | 0 =>
      rw [List.get?_cons_zero] at hb hf
      cases hb
      have hres : (p.fitOne b0).2 = some f := by simpa using hf
      exact GrowingPacker.fitOne_le hres
  | Nat.succ j =>
      rw [List.get?_cons_succ] at hb hf
      exact ih (p.fitOne b0).1 j b f hb hf

/-! ### Pairwise disjointness of placed footprints -/

/-- In a growing run from an invariant state, footprints placed at two
positions `i < j` have disjoint interiors: the later footprint is taken from
free space (or newly grown space) that the earlier placement already avoids. -/
theorem GrowingPacker.fit_pairwise {p : GrowingPacker} (hp : GPInv p)
    (blocks : List (ℚ × ℚ)) (hpos : ∀ b ∈ blocks, 0 < b.1 ∧ 0 < b.2)
    {i j : ℕ} {bi bj : ℚ × ℚ} {fi fj : Box} (hij : i < j)
    (hbi : blocks.get? i = some bi) (hbj : blocks.get? j = some bj)
    (hfi : (p.fit blocks).2.get? i = some (some fi))
    (hfj : (p.fit blocks).2.get? j = some (some fj)) :
    Disjoint (openBox (footprint bi fi)) (openBox (footprint bj fj)) := by
  obtain ⟨hjlen, -⟩ := List.get?_eq_some.mp hbj
  set l1 := blocks.take (i + 1) with hl1
  set l2 := blocks.drop (i + 1) with hl2
  have hsplit : blocks = l1 ++ l2 := (List.take_append_drop (i + 1) blocks).symm
  have hl1len : l1.length = i + 1 := by
    rw [hl1, List.length_take]
    omega
  have hr1len : (p.fit l1).2.length = i + 1 := by
    rw [GrowingPacker.fit_length]
    exact hl1len
  rw [hsplit, GrowingPacker.fit_append] at hfi hfj
  rw [List.get?_append (show i < (p.fit l1).2.length by omega)] at hfi
  rw [List.get?_append_right (show (p.fit l1).2.length ≤ j by omega), hr1len] at hfj
  have hbi' : l1.get? i = some bi := by
    rw [hl1, List.get?_take (Nat.lt_succ_self i)]
    exact hbi
  have hbj' : l2.get? (j - (i + 1)) = some bj := by
    rw [hl2, List.get?_drop, show i + 1 + (j - (i + 1)) = j from by omega]
    exact hbj
  have hpos1 : ∀ x ∈ l1, 0 < x.1 ∧ 0 < x.2 := fun x hx =>
    hpos x (by rw [hsplit]; exact List.mem_append_left _ hx)
  have hpos2 : ∀ x ∈ l2, 0 < x.1 ∧ 0 < x.2 := fun x hx =>
    hpos x (by rw [hsplit]; exact List.mem_append_right _ hx)
  obtain ⟨inv1, -, -, -, -, -⟩ := GrowingPacker.fit_state l1 p hp hpos1
  obtain ⟨-, -, dboxi, ddisji, -⟩ :=
    GrowingPacker.fit_placed l1 p hp hpos1 i bi fi hbi' hfi
  obtain ⟨-, -, -, -, dfromj⟩ :=
    GrowingPacker.fit_placed l2 (p.fit l1).1 inv1 hpos2 (j - (i + 1)) bj fj hbj' hfj
  rw [Set.disjoint_left]
  intro q hqi hqj
  rcases dfromj hqj with hfree | hcomp
  · exact Set.disjoint_left.mp ddisji hfree hqi
  · exact hcomp (openBox_subset_closedBox _ (openBox_mono dboxi hqi))

/-- In a fixed-packer run on a well-formed tree, footprints placed at two
positions `i < j` have disjoint interiors. -/
theorem Packer.fit_pairwise_fixed {root : Node} (hwf : root.WF)
    (blocks : List (ℚ × ℚ)) (hpos : ∀ b ∈ blocks, 0 < b.1 ∧ 0 < b.2)
    {i j : ℕ} {bi bj : ℚ × ℚ} {fi fj : Box} (hij : i < j)
    (hbi : blocks.get? i = some bi) (hbj : blocks.get? j = some bj)
    (hfi : (Packer.fit root blocks).2.get? i = some (some fi))
    (hfj : (Packer.fit root blocks).2.get? j = some (some fj)) :
    Disjoint (openBox (footprint bi fi)) (openBox (footprint bj fj)) := by
  obtain ⟨hjlen, -⟩ := List.get?_eq_some.mp hbj
  set l1 := blocks.take (i + 1) with hl1
  set l2 := blocks.drop (i + 1) with hl2
  have hsplit : blocks = l1 ++ l2 := (List.take_append_drop (i + 1) blocks).symm
  have hl1len : l1.length = i + 1 := by
    rw [hl1, List.length_take]
    omega
  have hr1len : (Packer.fit root l1).2.length = i + 1 := by
    have := (Packer.fit_state_fixed l1 root hwf (fun x hx =>
      hpos x (by rw [hsplit]; exact List.mem_append_left _ hx))).2.2.2
    rw [this]
    exact hl1len
  rw [hsplit, Packer.fit_append_fixed] at hfi hfj
  rw [List.get?_append (show i < (Packer.fit root l1).2.length by omega)] at hfi
  rw [List.get?_append_right (show (Packer.fit root l1).2.length ≤ j by omega),
    hr1len] at hfj
  have hbi' : l1.get? i = some bi := by
    rw [hl1, List.get?_take (Nat.lt_succ_self i)]
    exact hbi
  have hbj' : l2.get? (j - (i + 1)) = some bj := by
    rw [hl2, List.get?_drop, show i + 1 + (j - (i + 1)) = j from by omega]
    exact hbj
  have hpos1 : ∀ x ∈ l1, 0 < x.1 ∧ 0 < x.2 := fun x hx =>
    hpos x (by rw [hsplit]; exact List.mem_append_left _ hx)
  have hpos2 : ∀ x ∈ l2, 0 < x.1 ∧ 0 < x.2 := fun x hx =>
    hpos x (by rw [hsplit]; exact List.mem_append_right _ hx)
  obtain ⟨wf1, -, -, -⟩ := Packer.fit_state_fixed l1 root hwf hpos1
  obtain ⟨-, -, -, ddisji, -⟩ :=
    Packer.fit_placed_fixed l1 root hwf hpos1 i bi fi hbi' hfi
  obtain ⟨-, -, -, -, dfromj⟩ :=
    Packer.fit_placed_fixed l2 (Packer.fit root l1).1 wf1 hpos2 (j - (i + 1)) bj fj hbj' hfj
  rw [Set.disjoint_left]
  intro q hqi hqj
  exact Set.disjoint_left.mp ddisji (dfromj hqj) hqi

/-! ### Claims -/

/-- C1 (counterexample): the claim as stated is false.  A `GrowingPacker`
initialized at 50×100 (positive dimensions) on the positive blocks
(50,100), (60,10), (10,60) places block 1 with footprint 50×100 at (0,0) and
block 3 with footprint 10×60 at (0,55); the point (5,60) lies in both open
footprints, so two placed rectangles overlap.  (The inverted aspect ratio of
the portrait root makes `growRight` shrink the root's height below an
already-placed rectangle, and the later `growDown` strip overlaps it.) -/
theorem claim1_counterexample :
    (((GrowingPacker.init 50 100).fit [((50:ℚ), (100:ℚ)), (60, 10), (10, 60)]).2.get? 0 =
      some (some ⟨0, 0, 50, 100⟩)) ∧
    (((GrowingPacker.init 50 100).fit [((50:ℚ), (100:ℚ)), (60, 10), (10, 60)]).2.get? 2 =
      some (some ⟨0, 55, 230, 60⟩)) ∧
    ¬ Disjoint (openBox (footprint (50, 100) ⟨0, 0, 50, 100⟩))
        (openBox (footprint (10, 60) ⟨0, 55, 230, 60⟩)) := by
  refine ⟨by norm_num [GrowingPacker.init, GrowingPacker.fit, GrowingPacker.fitOne,
    GrowingPacker.growNode, GrowingPacker.growRight, GrowingPacker.growDown,
    tryInsert, splitNode], by norm_num [GrowingPacker.init, GrowingPacker.fit, GrowingPacker.fitOne,
    GrowingPacker.growNode, GrowingPacker.growRight, GrowingPacker.growDown,
    tryInsert, splitNode], ?_⟩
  intro hd
  exact Set.disjoint_left.mp hd
    (show ((5:ℚ), (60:ℚ)) ∈ openBox (footprint (50, 100) ⟨0, 0, 50, 100⟩) by
      norm_num [openBox, footprint, Set.mem_setOf_eq])
    (show ((5:ℚ), (60:ℚ)) ∈ openBox (footprint (10, 60) ⟨0, 55, 230, 60⟩) by
      norm_num [openBox, footprint, Set.mem_setOf_eq])

/-- C1 (amended): for the fixed packer (any initial dimensions) the open
footprints of any two distinct placed rectangles are disjoint, and the same
holds for the growing packer provided the initial width is at least the
initial height (both positive); with a portrait initial root the claim fails
as witnessed by the counterexample. -/
theorem claim1_no_overlap_amended :
    (∀ (W H : ℚ) (blocks : List (ℚ × ℚ)),
      (∀ b ∈ blocks, 0 < b.1 ∧ 0 < b.2) →
      ∀ (i j : ℕ) (bi bj : ℚ × ℚ) (fi fj : Box), i ≠ j →
        blocks.get? i = some bi → blocks.get? j = some bj →
        (Packer.fit (Packer.init W H) blocks).2.get? i = some (some fi) →
        (Packer.fit (Packer.init W H) blocks).2.get? j = some (some fj) →
        Disjoint (openBox (footprint bi fi)) (openBox (footprint bj fj))) ∧
    (∀ (W H : ℚ) (blocks : List (ℚ × ℚ)), 0 < H → H ≤ W →
      (∀ b ∈ blocks, 0 < b.1 ∧ 0 < b.2) →
      ∀ (i j : ℕ) (bi bj : ℚ × ℚ) (fi fj : Box), i ≠ j →
        blocks.get? i = some bi → blocks.get? j = some bj →
        ((GrowingPacker.init W H).fit blocks).2.get? i = some (some fi) →
        ((GrowingPacker.init W H).fit blocks).2.get? j = some (some fj) →
        Disjoint (openBox (footprint bi fi)) (openBox (footprint bj fj))) := by
  constructor
  · intro W H blocks hpos i j bi bj fi fj hij hbi hbj hfi hfj
    rcases lt_or_gt_of_ne hij with h | h
    · exact Packer.fit_pairwise_fixed (show (Packer.init W H).WF from trivial)
        blocks hpos h hbi hbj hfi hfj
    · exact (Packer.fit_pairwise_fixed (show (Packer.init W H).WF from trivial)
        blocks hpos h hbj hbi hfj hfi).symm
  · intro W H blocks hH hWH hpos i j bi bj fi fj hij hbi hbj hfi hfj
    rcases lt_or_gt_of_ne hij with h | h
    · exact GrowingPacker.fit_pairwise (GrowingPacker.init_inv hH hWH) blocks hpos h
        hbi hbj hfi hfj
    · exact (GrowingPacker.fit_pairwise (GrowingPacker.init_inv hH hWH) blocks hpos h
        hbj hbi hfj hfi).symm

/-- C1 (witness): the amended no-overlap theorem applied to
`FixedSizePacker(100,100).fit [(50,50),(50,50)]`. -/
theorem claim1_witness :
    Disjoint (openBox (footprint ((50:ℚ), (50:ℚ)) ⟨0, 0, 100, 100⟩))
      (openBox (footprint ((50:ℚ), (50:ℚ)) ⟨50, 0, 50, 50⟩)) :=
  claim1_no_overlap_amended.1 100 100 [(50, 50), (50, 50)] (by norm_num) 0 1
    (50, 50) (50, 50) ⟨0, 0, 100, 100⟩ ⟨50, 0, 50, 50⟩ (by norm_num)
    rfl rfl (by norm_num [Packer.init, Packer.fit, Packer.fitOne, tryInsert, splitNode]) (by norm_num [Packer.init, Packer.fit, Packer.fitOne, tryInsert, splitNode])

/-- C2 (counterexample): the claim as stated is false.  After
`GrowingPacker(50, 100)` (positive dimensions) places (50,100) and then grows
right for (60,10), the final root is 110×55, but the first block's footprint
[0,50]×[0,100] sticks out below the root box. -/
theorem claim2_counterexample :
    (((GrowingPacker.init 50 100).fit [((50:ℚ), (100:ℚ)), (60, 10)]).2.get? 0 =
      some (some ⟨0, 0, 50, 100⟩)) ∧
    ((GrowingPacker.init 50 100).fit [((50:ℚ), (100:ℚ)), (60, 10)]).1.root.width = 110 ∧
    ((GrowingPacker.init 50 100).fit [((50:ℚ), (100:ℚ)), (60, 10)]).1.root.height = 55 ∧
    ¬ boxSub (footprint (50, 100) ⟨0, 0, 50, 100⟩)
        ((GrowingPacker.init 50 100).fit [((50:ℚ), (100:ℚ)), (60, 10)]).1.root.box := by
  norm_num [GrowingPacker.init, GrowingPacker.fit, GrowingPacker.fitOne,
    GrowingPacker.growNode, GrowingPacker.growRight, GrowingPacker.growDown,
    tryInsert, splitNode, footprint, boxSub, Node.box]

/-- C2 (amended): every placed footprint lies inside the root box as it
stands at the end of the run — for the fixed packer always (its root box
never changes), and for the growing packer provided the initial width is at
least the initial height (both positive). -/
theorem claim2_containment_amended :
    (∀ (W H : ℚ) (blocks : List (ℚ × ℚ)),
      (∀ b ∈ blocks, 0 < b.1 ∧ 0 < b.2) →
      ∀ (i : ℕ) (b : ℚ × ℚ) (f : Box),
        blocks.get? i = some b →
        (Packer.fit (Packer.init W H) blocks).2.get? i = some (some f) →
        boxSub (footprint b f) (Packer.fit (Packer.init W H) blocks).1.box) ∧
    (∀ (W H : ℚ) (blocks : List (ℚ × ℚ)), 0 < H → H ≤ W →
      (∀ b ∈ blocks, 0 < b.1 ∧ 0 < b.2) →
      ∀ (i : ℕ) (b : ℚ × ℚ) (f : Box),
        blocks.get? i = some b →
        ((GrowingPacker.init W H).fit blocks).2.get? i = some (some f) →
        boxSub (footprint b f) ((GrowingPacker.init W H).fit blocks).1.root.box) := by
  constructor
  · intro W H blocks hpos i b f hb hf
    obtain ⟨-, -, dbox, -, -⟩ :=
      Packer.fit_placed_fixed blocks (Packer.init W H) trivial hpos i b f hb hf
    rw [(Packer.fit_state_fixed blocks (Packer.init W H) trivial hpos).2.1]
    exact dbox
  · intro W H blocks hH hWH hpos i b f hb hf
    obtain ⟨-, -, dbox, -, -⟩ := GrowingPacker.fit_placed blocks (GrowingPacker.init W H)
      (GrowingPacker.init_inv hH hWH) hpos i b f hb hf
    exact dbox

/-- C2 (witness): the amended containment theorem applied to
`FixedSizePacker(100,100).fit [(50,50)]`. -/
theorem claim2_witness :
    boxSub (footprint ((50:ℚ), (50:ℚ)) ⟨0, 0, 100, 100⟩)
      (Packer.fit (Packer.init 100 100) [((50:ℚ), (50:ℚ))]).1.box :=
  claim2_containment_amended.1 100 100 [(50, 50)] (by norm_num) 0 (50, 50)
    ⟨0, 0, 100, 100⟩ rfl (by norm_num [Packer.init, Packer.fit, Packer.fitOne, tryInsert, splitNode])

/-- C3 (counterexample): the claim as stated is false.  `GrowingPacker(50,
100)` starts with root height 100; after one block (60,10) triggers
`growRight`, the root height is 55 — the height decreased.  (The aspect
ratio is stored as max/min = 2, but `growRight` computes the new height as
`newWidth / aspectRatio`, assuming a landscape root.) -/
theorem claim3_counterexample :
    (GrowingPacker.init 50 100).root.height = 100 ∧
    ((GrowingPacker.init 50 100).fit [((60:ℚ), (10:ℚ))]).1.root.height = 55 ∧
    ¬ ((100:ℚ) ≤ 55) := by
  norm_num [GrowingPacker.init, GrowingPacker.fit, GrowingPacker.fitOne,
    GrowingPacker.growNode, GrowingPacker.growRight, GrowingPacker.growDown,
    tryInsert, splitNode]

/-- C3 (amended): in a growing run whose initial width is at least the
initial height (both positive), the root's width and height are
non-decreasing: after processing any further blocks the root dimensions are
at least what they were after any prefix of the input (each step performs at
most one `growRight`/`growDown`, so this covers every grow step). -/
theorem claim3_growth_monotone_amended (W H : ℚ) (hH : 0 < H) (hWH : H ≤ W)
    (l1 l2 : List (ℚ × ℚ)) (hpos : ∀ b ∈ l1 ++ l2, 0 < b.1 ∧ 0 < b.2) :
    ((GrowingPacker.init W H).fit l1).1.root.width ≤
      ((GrowingPacker.init W H).fit (l1 ++ l2)).1.root.width ∧
    ((GrowingPacker.init W H).fit l1).1.root.height ≤
      ((GrowingPacker.init W H).fit (l1 ++ l2)).1.root.height := by
  have hpos1 : ∀ b ∈ l1, 0 < b.1 ∧ 0 < b.2 := fun b hb =>
    hpos b (List.mem_append_left _ hb)
  have hpos2 : ∀ b ∈ l2, 0 < b.1 ∧ 0 < b.2 := fun b hb =>
    hpos b (List.mem_append_right _ hb)
  obtain ⟨inv1, -, -, -, -, -⟩ := GrowingPacker.fit_state l1 (GrowingPacker.init W H)
    (GrowingPacker.init_inv hH hWH) hpos1
  obtain ⟨-, -, w2, h2, -, -⟩ :=
    GrowingPacker.fit_state l2 ((GrowingPacker.init W H).fit l1).1 inv1 hpos2
  rw [GrowingPacker.fit_append]
  exact ⟨w2, h2⟩

/-- C3 (witness): the amended monotonicity theorem applied to the 100×100
grow-right scenario. -/
theorem claim3_witness :
    ((GrowingPacker.init 100 100).fit [((100:ℚ), (100:ℚ))]).1.root.width ≤
      ((GrowingPacker.init 100 100).fit
        ([((100:ℚ), (100:ℚ))] ++ [((100:ℚ), (100:ℚ))])).1.root.width ∧
    ((GrowingPacker.init 100 100).fit [((100:ℚ), (100:ℚ))]).1.root.height ≤
      ((GrowingPacker.init 100 100).fit
        ([((100:ℚ), (100:ℚ))] ++ [((100:ℚ), (100:ℚ))])).1.root.height :=
  claim3_growth_monotone_amended 100 100 (by norm_num) (by norm_num)
    [(100, 100)] [(100, 100)] (by norm_num)

/-- C4 (counterexample): the claim as stated is false.  In the 100×100
grow-right scenario the final root is a used node whose `down` child is the
old 100×100 root and whose `right` child is the split 100×200 strip; these do
not arise from `splitNode` on the 200×200 root, and together with any placed
footprint they leave the region (0,100)×(100,200) uncovered. -/
theorem claim4_counterexample :
    ¬ ((GrowingPacker.init 100 100).fit
        [((100:ℚ), (100:ℚ)), (100, 100)]).1.root.fullySplit := by
  norm_num [GrowingPacker.init, GrowingPacker.fit, GrowingPacker.fitOne,
    GrowingPacker.growNode, GrowingPacker.growRight, GrowingPacker.growDown,
    tryInsert, splitNode, Node.fullySplit, isSplitOf]

/-- C4 (amended): every node is either a free leaf or a used node carrying
both children (enforced by construction: `splitNode`, `growRight` and
`growDown` always set both), and the two children of every used node never
overlap; but only nodes split by `splitNode` partition their rectangle
together with the placed footprint (claim C7) — the roots created by
`growRight`/`growDown` may leave part of the enlarged rectangle covered by
neither child. -/
theorem claim4_children_amended :
    (∀ (W H : ℚ) (blocks : List (ℚ × ℚ)),
      (Packer.fit (Packer.init W H) blocks).1.childrenDisjoint) ∧
    (∀ (W H : ℚ) (blocks : List (ℚ × ℚ)),
      ((GrowingPacker.init W H).fit blocks).1.root.childrenDisjoint) := by
  constructor
  · intro W H blocks
    exact Packer.fit_childrenDisjoint blocks (Packer.init W H) trivial
  · intro W H blocks
    exact GrowingPacker.fit_shape blocks (GrowingPacker.init W H) rfl rfl trivial

/-- C5 (counterexample): the claim as stated is false.  `GrowingPacker(50,
100)` leaves the very first block (60,80) unplaced although its height 80
does not exceed the root height 100: `growRight` is chosen, rebuilds the
root at 110×55, and the re-run search fails because the fresh strip is only
55 high. -/
theorem claim5_counterexample :
    ((GrowingPacker.init 50 100).fit [((60:ℚ), (80:ℚ))]).2 = [none] ∧
    (60:ℚ) > (GrowingPacker.init 50 100).root.width ∧
    ¬ ((80:ℚ) > (GrowingPacker.init 50 100).root.height) := by
  norm_num [GrowingPacker.init, GrowingPacker.fit, GrowingPacker.fitOne,
    GrowingPacker.growNode, GrowingPacker.growRight, GrowingPacker.growDown,
    tryInsert, splitNode]

/-- C5 (amended): in a growing run whose initial width is at least the
initial height (both positive), a block is recorded as unplaced exactly when
its width strictly exceeds the current root's width and its height strictly
exceeds the current root's height at the moment it is processed; processing
always continues (one result per input block). -/
theorem claim5_unplaced_iff_amended (W H : ℚ) (hH : 0 < H) (hWH : H ≤ W)
    (l1 : List (ℚ × ℚ)) (b : ℚ × ℚ) (l2 : List (ℚ × ℚ))
    (hpos : ∀ x ∈ l1 ++ b :: l2, 0 < x.1 ∧ 0 < x.2) :
    ((GrowingPacker.init W H).fit (l1 ++ b :: l2)).2.length = (l1 ++ b :: l2).length ∧
    (((GrowingPacker.init W H).fit (l1 ++ b :: l2)).2.get? l1.length = some none ↔
      ((GrowingPacker.init W H).fit l1).1.root.width < b.1 ∧
      ((GrowingPacker.init W H).fit l1).1.root.height < b.2) := by
  refine ⟨GrowingPacker.fit_length _ _, ?_⟩
  have hpos1 : ∀ x ∈ l1, 0 < x.1 ∧ 0 < x.2 := fun x hx =>
    hpos x (List.mem_append_left _ hx)
  have hb : 0 < b.1 ∧ 0 < b.2 :=
    hpos b (List.mem_append_right _ (List.mem_cons_self b l2))
  obtain ⟨inv1, -, -, -, -, -⟩ := GrowingPacker.fit_state l1 (GrowingPacker.init W H)
    (GrowingPacker.init_inv hH hWH) hpos1
  rw [GrowingPacker.fit_append]
  rw [List.get?_append_right
    (le_of_eq (GrowingPacker.fit_length l1 (GrowingPacker.init W H)))]
  rw [GrowingPacker.fit_length, Nat.sub_self]
  rw [GrowingPacker.fit_cons, List.get?_cons_zero]
  have step := fitOne_spec inv1 hb.1 hb.2
  unfold StepOk at step
  obtain ⟨-, -, -, -, -, hiff, -⟩ := step
  rw [Option.some_inj]
  exact hiff

/-- C5 (witness): the amended characterization applied to
`GrowingPacker(100,100)` and a 300×300 first block: it exceeds the root in
both directions and is reported unplaced. -/
theorem claim5_witness :
    ((GrowingPacker.init 100 100).fit
      (([] : List (ℚ × ℚ)) ++ ((300:ℚ), (300:ℚ)) :: [])).2.get?
      (List.length ([] : List (ℚ × ℚ))) = some none :=
  (claim5_unplaced_iff_amended 100 100 (by norm_num) (by norm_num)
    [] (300, 300) [] (by norm_num)).2.mpr
    ⟨by norm_num [GrowingPacker.init, GrowingPacker.fit],
     by norm_num [GrowingPacker.init, GrowingPacker.fit]⟩

/-- C6 (counterexample): the claim as stated is false.
`FixedSizePacker(100,100).fit [(50,50)]` records as the block's `fit` the
whole 100×100 root node, whose width 100 is not the rectangle's width 50
(`splitNode` leaves the node's own width/height unchanged). -/
theorem claim6_counterexample :
    (Packer.fit (Packer.init 100 100) [((50:ℚ), (50:ℚ))]).2 =
      [some ⟨0, 0, 100, 100⟩] ∧
    ¬ ((100:ℚ) = 50) := by
  norm_num [Packer.init, Packer.fit, Packer.fitOne, tryInsert, splitNode]

/-- C6 (amended): for every successfully placed rectangle (either packer),
the node recorded as its placement has width at least the rectangle's width
and height at least the rectangle's height (the node is the free node the
search accepted, whose own dimensions are left at the original footprint). -/
theorem claim6_fit_dims_amended :
    (∀ (W H : ℚ) (blocks : List (ℚ × ℚ)) (i : ℕ) (b : ℚ × ℚ) (f : Box),
      blocks.get? i = some b →
      (Packer.fit (Packer.init W H) blocks).2.get? i = some (some f) →
      b.1 ≤ f.width ∧ b.2 ≤ f.height) ∧
    (∀ (W H : ℚ) (blocks : List (ℚ × ℚ)) (i : ℕ) (b : ℚ × ℚ) (f : Box),
      blocks.get? i = some b →
      ((GrowingPacker.init W H).fit blocks).2.get? i = some (some f) →
      b.1 ≤ f.width ∧ b.2 ≤ f.height) :=
  ⟨fun W H blocks i b f hb hf => Packer.fit_le_fixed blocks (Packer.init W H) i b f hb hf,
   fun W H blocks i b f hb hf =>
     GrowingPacker.fit_le blocks (GrowingPacker.init W H) i b f hb hf⟩

/-- C6 (witness): the amended bound applied to
`FixedSizePacker(100,100).fit [(50,50)]`. -/
theorem claim6_witness :
    (50:ℚ) ≤ (⟨0, 0, 100, 100⟩ : Box).width ∧
    (50:ℚ) ≤ (⟨0, 0, 100, 100⟩ : Box).height :=
  claim6_fit_dims_amended.1 100 100 [(50, 50)] 0 (50, 50) ⟨0, 0, 100, 100⟩
    rfl (by norm_num [Packer.init, Packer.fit, Packer.fitOne, tryInsert, splitNode])

/-- C7: `splitNode(node, w, h)` sets `used` to true, sets `down` to
`{x: node.x, y: node.y + h, width: node.width, height: node.height - h}`,
sets `right` to `{x: node.x + w, y: node.y, width: node.width - w,
height: h}`, and returns the same node with its x, y, width and height
unchanged from before the call. -/
theorem claim7_splitNode_spec (n : Node) (w h : ℚ) :
    (splitNode n w h).usedFlag = true ∧
    (splitNode n w h).downChild =
      some (Node.free n.x (n.y + h) n.width (n.height - h)) ∧
    (splitNode n w h).rightChild =
      some (Node.free (n.x + w) n.y (n.width - w) h) ∧
    (splitNode n w h).x = n.x ∧ (splitNode n w h).y = n.y ∧
    (splitNode n w h).width = n.width ∧ (splitNode n w h).height = n.height :=
  ⟨rfl, rfl, rfl, rfl, rfl, rfl, rfl⟩

/-- C8: for `GrowingPacker(100,100)` (aspect ratio 1), after placing the
first 100×100 block, the second 100×100 block finds `shouldGrowRight` false
(`100 * 1 ≥ 100 + 100` fails), `shouldGrowDown` false (same), falls through
to `canGrowRight` (`100 ≤ 100`), chooses `growRight`, and the resulting root
is exactly 200×200. -/
theorem claim8_grow_right_scenario :
    (GrowingPacker.init 100 100).aspect = 1 ∧
    ((GrowingPacker.init 100 100).fit [((100:ℚ), (100:ℚ))]).1.root.width = 100 ∧
    ((GrowingPacker.init 100 100).fit [((100:ℚ), (100:ℚ))]).1.root.height = 100 ∧
    ¬ (((GrowingPacker.init 100 100).fit [((100:ℚ), (100:ℚ))]).1.root.height *
        ((GrowingPacker.init 100 100).fit [((100:ℚ), (100:ℚ))]).1.aspect ≥
       ((GrowingPacker.init 100 100).fit [((100:ℚ), (100:ℚ))]).1.root.width + 100) ∧
    ¬ (((GrowingPacker.init 100 100).fit [((100:ℚ), (100:ℚ))]).1.root.width *
        (1 / ((GrowingPacker.init 100 100).fit [((100:ℚ), (100:ℚ))]).1.aspect) ≥
       ((GrowingPacker.init 100 100).fit [((100:ℚ), (100:ℚ))]).1.root.height + 100) ∧
    ((100:ℚ) ≤ ((GrowingPacker.init 100 100).fit [((100:ℚ), (100:ℚ))]).1.root.height) ∧
    (((GrowingPacker.init 100 100).fit [((100:ℚ), (100:ℚ))]).1.growNode 100 100 =
      ((GrowingPacker.init 100 100).fit [((100:ℚ), (100:ℚ))]).1.growRight 100 100) ∧
    ((GrowingPacker.init 100 100).fit
      [((100:ℚ), (100:ℚ)), (100, 100)]).1.root.width = 200 ∧
    ((GrowingPacker.init 100 100).fit
      [((100:ℚ), (100:ℚ)), (100, 100)]).1.root.height = 200 := by
  norm_num [GrowingPacker.init, GrowingPacker.fit, GrowingPacker.fitOne,
    GrowingPacker.growNode, GrowingPacker.growRight, GrowingPacker.growDown,
    tryInsert, splitNode]

/-- C9: `FixedSizePacker(100,100).fit [(50,50),(50,50),(60,60)]` places the
first rectangle at (0,0), the second at (50,0), and leaves the third
unplaced. -/
theorem claim9_fixed_scenario :
    ((Packer.fit (Packer.init 100 100)
        [((50:ℚ), (50:ℚ)), (50, 50), (60, 60)]).2.map
      (Option.map fun f => (f.x, f.y))) = [some (0, 0), some (50, 0), none] := by
  norm_num [Packer.init, Packer.fit, Packer.fitOne, tryInsert, splitNode]

/-- C10: with positive initial dimensions and positive block dimensions,
every node of the final tree of either packer has non-negative width and
height (quantified over all inputs, this covers every intermediate tree of a
run as the final tree of a shorter run; the zero-size degenerate children of
an exact-fit split are the extreme case, and `splitNode` is only reached
through the `w ≤ node.width && h ≤ node.height` guard of `findNode` or a
fresh grow strip at least as large as the block). -/
theorem claim10_nonneg (W H : ℚ) (blocks : List (ℚ × ℚ))
    (hW : 0 < W) (hH : 0 < H) (hpos : ∀ b ∈ blocks, 0 < b.1 ∧ 0 < b.2) :
    (Packer.fit (Packer.init W H) blocks).1.nonneg ∧
    ((GrowingPacker.init W H).fit blocks).1.root.nonneg := by
  refine ⟨Packer.fit_nonneg_fixed blocks (Packer.init W H)
    ⟨le_of_lt hW, le_of_lt hH⟩ hpos, ?_⟩
  refine GrowingPacker.fit_nonneg blocks (GrowingPacker.init W H) ?_
    ⟨le_of_lt hW, le_of_lt hH⟩ hpos
  by_cases hc : W / H > 1
  · simp only [GrowingPacker.init, hc, if_true]
    exact lt_trans one_pos hc
  · simp only [GrowingPacker.init, hc, if_false]
    exact div_pos hH hW

/-- C10 (witness): the non-negativity theorem applied to 100×100 packers
and a single 50×50 block. -/
theorem claim10_witness :
    (Packer.fit (Packer.init 100 100) [((50:ℚ), (50:ℚ))]).1.nonneg ∧
    ((GrowingPacker.init 100 100).fit [((50:ℚ), (50:ℚ))]).1.root.nonneg :=
  claim10_nonneg 100 100 [(50, 50)] (by norm_num) (by norm_num) (by norm_num)

end Packing
